import Mathlib

/-!
Verification development for the gonedice dice-expression evaluator.

The definitions below are a shallow embedding of the Go sources
(`gonedice` package, canonical implementation: the file containing
`preProcessTokens`, `a_m`/`c_m` and the tens/units `b`/`p` mechanic).
Go's `*rand.Rand` is modelled as a stream `g : Nat → Nat` with a cursor:
`rng.Intn n` returns `g idx % n` and advances the cursor, so quantifying
over `g` quantifies over every possible sequence of roll outcomes.
Go maps are modelled as association lists (first binding wins, insertion
replaces in place), `nil` maps as `Option`.  Loops that are not
structurally recursive take an explicit fuel argument.
-/

set_option maxRecDepth 8000

namespace GoneDice

/-- Error taxonomy of the Go `ErrorType` constants. -/
inductive ErrorType where
  | unknownGenerate
  | inputRawInvalid
  | nodeStackEmpty
  | nodeLeftValInvalid
  | nodeRightValInvalid
  deriving DecidableEq, Repr

/-- Runtime value (Go struct `Value`): a number, optional integer meta
(`Meta` is `none` for a Go nil slice, `some []` for an empty one),
the meta flag, the temp-variable reference fields and optional string meta. -/
structure Value where
  V : Int
  Meta : Option (List Int)
  MetaEnable : Bool
  TempIndex : Int
  IsTemp : Bool
  MetaStr : Option (List String)
  deriving DecidableEq, Repr

/-- Go's zero `Value{}`. -/
def Value.zero : Value := ⟨0, none, false, 0, false, none⟩

/-- Push of a plain scalar, Go `Value{V: v}`. -/
def Value.scalar (v : Int) : Value := ⟨v, none, false, 0, false, none⟩

/-- One element of `Result.MetaTuple` (Go `interface{}`: `int` or `string`). -/
inductive MetaItem where
  | int (i : Int)
  | str (s : String)
  deriving DecidableEq, Repr

/-- Go struct `Result`.  The empty Go error string is `none`. -/
structure Result where
  Value : Int
  Min : Int
  Max : Int
  Detail : String
  MetaTuple : List MetaItem
  Error : Option ErrorType
  deriving DecidableEq, Repr

/-- The random source: a stream of raw draws and a cursor.  `Intn n` of
Go's `*rand.Rand` (uniform in `[0,n)`) is modelled as `g idx % n`, which
ranges over exactly the values `0..n-1` as `g` ranges over all streams. -/
structure Rng where
  g : Nat → Nat
  idx : Nat

/-- Go `r.rng.Intn(n)` (callers only invoke it with `n > 0`). -/
def intn (r : Rng) (n : Int) : Int × Rng :=
  (Int.ofNat (r.g r.idx % n.toNat), ⟨r.g, r.idx + 1⟩)

/-- The mutable parts of the Go `RD` struct threaded through evaluation:
`ValueTable` (a possibly-nil map), `temp`, the shared random source and
`DefaultFaces`. -/
structure EvalSt where
  vt : Option (List (String × Int))
  temp : List (Int × Int)
  rng : Rng
  defaultFaces : Int

/-! ### Character and string helpers (ASCII, as the Go code reads bytes) -/

/-- Go `isDigit`. -/
def isDigit (c : Char) : Bool := 48 ≤ c.toNat && c.toNat ≤ 57

/-- ASCII letter test used by the tokenizer (`a-z`, `A-Z`). -/
def isAlphaC (c : Char) : Bool :=
  (97 ≤ c.toNat && c.toNat ≤ 122) || (65 ≤ c.toNat && c.toNat ≤ 90)

/-- ASCII alphanumeric test (after `$`). -/
def isAlnumC (c : Char) : Bool := isAlphaC c || isDigit c

/-- ASCII lower-casing of a character (`strings.ToLower`). -/
def lowerC (c : Char) : Char :=
  if 65 ≤ c.toNat && c.toNat ≤ 90 then Char.ofNat (c.toNat + 32) else c

/-- ASCII upper-casing of a character (`strings.ToUpper`). -/
def upperC (c : Char) : Char :=
  if 97 ≤ c.toNat && c.toNat ≤ 122 then Char.ofNat (c.toNat - 32) else c

/-- `strings.ToLower`. -/
def strLower (s : String) : String := String.mk (s.data.map lowerC)

/-- `strings.ToUpper`. -/
def strUpper (s : String) : String := String.mk (s.data.map upperC)

/-- Digit accumulation for `strconv.Atoi`. -/
def natOfDigits : Nat → List Char → Option Nat
  | acc, [] => some acc
  | acc, c :: rest =>
    if isDigit c then natOfDigits (acc * 10 + (c.toNat - 48)) rest else none

/-- `strconv.Atoi` on the cases that occur in this pipeline: an optional
sign followed by at least one digit. -/
def atoi? (s : String) : Option Int :=
  match s.data with
  | [] => none
  | '-' :: rest =>
    if rest = [] then none else (natOfDigits 0 rest).map (fun n => -(n : Int))
  | '+' :: rest =>
    if rest = [] then none else (natOfDigits 0 rest).map (fun n => (n : Int))
  | l => (natOfDigits 0 l).map (fun n => (n : Int))

/-- Decimal digits of a natural number, most significant first. -/
def natDigits (fuel : Nat) (n : Nat) (acc : List Char) : List Char :=
  match fuel with
  | 0 => acc
  | fuel + 1 =>
    if n < 10 then Char.ofNat (48 + n) :: acc
    else natDigits fuel (n / 10) (Char.ofNat (48 + n % 10) :: acc)

/-- `strconv.Itoa`. -/
def itoa (i : Int) : String :=
  if i < 0 then String.mk ('-' :: natDigits ((-i).toNat + 1) (-i).toNat [])
  else String.mk (natDigits (i.toNat + 1) i.toNat [])

/-- Whitespace recognised by the tokenizer's explicit skip and by
`strings.TrimSpace` on the inputs that occur here. -/
def isSpaceC (c : Char) : Bool := c = ' ' || c = '\t' || c = '\n' || c = '\r'

/-- `strings.TrimSpace`. -/
def trimWS (l : List Char) : List Char :=
  ((l.dropWhile isSpaceC).reverse.dropWhile isSpaceC).reverse

/-! ### Tokenizer (Go `tokenize`) -/

/-- Scan of a double-quoted string literal body: a backslash escapes the
following character verbatim, the scan stops at the closing quote.
Returns the unescaped content and the remaining input, `none` when the
literal is unterminated. -/
def scanStr : List Char → Option (List Char × List Char)
  | [] => none
  | '\\' :: d :: rest => (scanStr rest).map (fun p => (d :: p.1, p.2))
  | '"' :: rest => some ([], rest)
  | c :: rest => (scanStr rest).map (fun p => (c :: p.1, p.2))

/-- Inside a bracketed tuple: skip a string literal (after its opening
quote), returning the consumed characters including the closing quote. -/
def skipStrInBr : List Char → Option (List Char × List Char)
  | [] => none
  | '\\' :: d :: rest => (skipStrInBr rest).map (fun p => ('\\' :: d :: p.1, p.2))
  | '"' :: rest => some (['"'], rest)
  | c :: rest => (skipStrInBr rest).map (fun p => (c :: p.1, p.2))

/-- Scan of a bracketed tuple `[...]` with nesting depth tracking, string
contents skipped so a `]` inside a string does not close the tuple.
`acc` holds the consumed characters in reverse; returns the whole token's
characters (brackets included) and the rest, `none` when unterminated. -/
def scanBr (fuel : Nat) (l : List Char) (depth : Nat) (acc : List Char) :
    Option (List Char × List Char) :=
  match fuel with
  | 0 => none
  | fuel + 1 =>
    match l with
    | [] => none
    | c :: rest =>
      if c = '[' then scanBr fuel rest (depth + 1) (c :: acc)
      else if c = ']' then
        if depth = 1 then some ((c :: acc).reverse, rest)
        else scanBr fuel rest (depth - 1) (c :: acc)
      else if c = '"' then
        match skipStrInBr rest with
        | none => none
        | some (consumed, rest') =>
          scanBr fuel rest' depth (consumed.reverse ++ c :: acc)
      else scanBr fuel rest depth (c :: acc)

/-- Digit-run scan. -/
def spanP (p : Char → Bool) : List Char → List Char × List Char
  | [] => ([], [])
  | c :: rest =>
    if p c then
      let (a, b) := spanP p rest
      (c :: a, b)
    else ([], c :: rest)

/-- The single-character operator/punctuation set of the tokenizer. -/
def isSingleC (c : Char) : Bool :=
  c = '+' || c = '-' || c = '*' || c = '/' || c = '^' || c = '(' || c = ')' ||
  c = ',' || c = '?' || c = ':' || c = '=' || c = '<' || c = '>' || c = '&' ||
  c = '|' || c = '%'

/-- Main tokenizer loop (Go `tokenize`), fuelled; each step consumes at
least one character so `length + 1` fuel always suffices. -/
def tokenizeLoop (fuel : Nat) (l : List Char) (acc : List String) :
    Option (List String) :=
  match fuel with
  | 0 => none
  | fuel + 1 =>
    match l with
    | [] => some acc
    | c :: rest =>
      if isSpaceC c then tokenizeLoop fuel rest acc
      else if c = '"' then
        match scanStr rest with
        | none => none
        | some (content, rest') =>
          tokenizeLoop fuel rest' (acc ++ [String.mk ('"' :: content ++ ['"'])])
      else if isDigit c then
        let (digs, rest') := spanP isDigit rest
        tokenizeLoop fuel rest' (acc ++ [String.mk (c :: digs)])
      else if c = '[' then
        match scanBr (l.length + 1) l 0 [] with
        | none => none
        | some (tokChars, rest') =>
          tokenizeLoop fuel rest' (acc ++ [String.mk tokChars])
      else if isSingleC c then tokenizeLoop fuel rest (acc ++ [String.mk [c]])
      else if c = '$' then
        let (alnums, rest') := spanP isAlnumC rest
        tokenizeLoop fuel rest' (acc ++ [String.mk (c :: alnums)])
      else if isAlphaC c then
        let (letters, rest') := spanP isAlphaC rest
        tokenizeLoop fuel rest' (acc ++ [String.mk (c :: letters)])
      else none

/-- Go `tokenize`: trim, then scan; `none` is a lex error. -/
def tokenize (s : String) : Option (List String) :=
  let l := trimWS s.data
  tokenizeLoop (l.length + 1) l []

/-! ### Precedence table and preprocessor -/

/-- The Go `prec` map. -/
def precList : List (String × Nat) :=
  [("|", 2), ("&", 2), ("<", 1), (">", 1), ("+", 3), ("-", 3), ("*", 4),
   ("/", 4), ("^", 5), ("d", 7), ("df", 7), ("k", 6), ("q", 6), ("a", 7),
   ("c", 7), ("a_m", 7), ("c_m", 7), ("b", 7), ("p", 7), ("f", 7),
   ("kh", 6), ("kl", 6), ("dh", 6), ("dl", 6), ("min", 6), ("max", 6),
   ("sp", 6), ("tp", 6), ("lp", 6), ("?", 8), ("=", 9)]

/-- Go `isOperator`. -/
def isOperator (tok : String) : Bool := (precList.lookup tok).isSome

/-- Lookup in the `prec` map (missing key gives Go's zero value 0). -/
def getPrec (tok : String) : Nat := (precList.lookup tok).getD 0

/-- Go `isLeftAssoc`: everything but `^` and `=`. -/
def isLeftAssoc (op : String) : Bool := !(op = "^" || op = "=")

/-- Default left operand inserted by preprocessing phase 1. -/
def defaultLeftTok (low : String) : List String :=
  if low = "d" then ["1"]
  else if low = "b" || low = "p" || low = "a" || low = "c" then ["1"]
  else if low = "f" || low = "df" then ["4"]
  else []

/-- Default right operand inserted by preprocessing phase 1. -/
def defaultRightTok (low : String) : List String :=
  if low = "b" || low = "p" then ["1"]
  else if low = "f" || low = "df" then ["3"]
  else []

/-- Phase 1 of Go `preProcessTokens`: insert missing left/right default
operands for `d b p f df a c`.  `out` is the accumulated output. -/
def ppPhase1 (out : List String) : List String → List String
  | [] => out
  | tok :: rest =>
    let low := strLower tok
    if low = "d" || low = "b" || low = "p" || low = "f" || low = "df" ||
        low = "a" || low = "c" then
      let needLeft :=
        match out.getLast? with
        | none => true
        | some last =>
          isOperator (strLower last) || last = "(" || last = "?" || last = ":"
      let out1 := (if needLeft then out ++ defaultLeftTok low else out) ++ [tok]
      let needRight :=
        match rest.head? with
        | none => true
        | some next =>
          isOperator (strLower next) || next = ")" || next = ":"
      let out2 := if needRight then out1 ++ defaultRightTok low else out1
      ppPhase1 out2 rest
    else ppPhase1 (out ++ [tok]) rest

/-- Phase 2 of Go `preProcessTokens`: rewrite
`left a threshold m faces` into `left threshold faces a_m` (and the `c`
variant) when both literals parse as integers. -/
def ppPhase2 : List String → List String
  | x0 :: x1 :: x2 :: x3 :: x4 :: rest =>
    if (strLower x1 = "a" || strLower x1 = "c") && strLower x3 = "m" &&
        (atoi? x2).isSome && (atoi? x4).isSome then
      x0 :: x2 :: x4 :: (strLower x1 ++ "_m") :: ppPhase2 rest
    else x0 :: ppPhase2 (x1 :: x2 :: x3 :: x4 :: rest)
  | l => l

/-- Phase 3 of Go `preProcessTokens`: rewrite `d %` to `d 100` and give a
`d` with no right operand the configurable default face count.  `first`
tracks Go's `j == 0` (the token sits at the start of the phase-2 output);
each step consumes at least one token, so `length + 1` fuel suffices. -/
def ppPhase3 (fuel : Nat) (defaultD : Int) (first : Bool) (l : List String) :
    List String :=
  match fuel with
  | 0 => l
  | fuel + 1 =>
    match l with
    | [] => []
    | tok :: rest =>
      if strLower tok = "d" then
        match rest with
        | "%" :: rest2 =>
          (if first then ["1"] else []) ++
            "d" :: itoa 100 :: ppPhase3 fuel defaultD false rest2
        | next :: _ =>
          if isOperator (strLower next) || next = ")" || next = ":" then
            (if first then ["1"] else []) ++
              "d" :: itoa defaultD :: ppPhase3 fuel defaultD false rest
          else tok :: ppPhase3 fuel defaultD false rest
        | [] => (if first then ["1"] else []) ++ ["d", itoa defaultD]
      else tok :: ppPhase3 fuel defaultD false rest

/-- Go `preProcessTokens`. -/
def preProcessTokens (toks : List String) (defaultD : Int) : List String :=
  let res := ppPhase2 (ppPhase1 [] toks)
  ppPhase3 (res.length + 1) defaultD true res

/-! ### Shunting-yard conversion (Go `toRPN`) -/

/-- Pop loop for a binary operator: move operators of sufficient
precedence from the stack to the output. -/
def rpnPopOps (op : String) : List String → List String → List String × List String
  | [], out => ([], out)
  | top :: stack, out =>
    if isOperator top &&
        ((isLeftAssoc op && decide (getPrec op ≤ getPrec top)) ||
          (!isLeftAssoc op && decide (getPrec op < getPrec top))) then
      rpnPopOps op stack (out ++ [top])
    else (top :: stack, out)

/-- Pop loop for `:`: move operators to the output until the matching `?`
is found and replaced by `:` on the stack; `none` if there is none. -/
def rpnPopToQ : List String → List String → Option (List String × List String)
  | [], _ => none
  | top :: stack, out =>
    if top = "?" then some (":" :: stack, out)
    else rpnPopToQ stack (out ++ [top])

/-- Pop loop for `)`: move operators to the output until the matching `(`. -/
def rpnPopParen : List String → List String → Option (List String × List String)
  | [], _ => none
  | top :: stack, out =>
    if top = "(" then some (stack, out)
    else rpnPopParen stack (out ++ [top])

/-- Final drain of the operator stack; leftover parentheses are an error. -/
def rpnFlush : List String → List String → Option (List String)
  | [], out => some out
  | top :: rest, out =>
    if top = "(" || top = ")" then none
    else rpnFlush rest (out ++ [top])

/-- Head character of a token, if any. -/
def headCh (tok : String) : Option Char := tok.data.head?

/-- Quoted-string token test of `toRPN`/`evalRPN`:
length at least 2, first and last characters `"`. -/
def isQuotedTok (tok : String) : Bool :=
  tok.data.length ≥ 2 && tok.data.head? = some '"' && tok.data.getLast? = some '"'

/-- Main shunting-yard loop of Go `toRPN`.  Note that `?` is in the
precedence map, so it is handled by the generic operator branch. -/
def toRPNAux : List String → List String → List String → Option (List String)
  | [], stack, out => rpnFlush stack out
  | tok :: rest, stack, out =>
    if (atoi? tok).isSome then toRPNAux rest stack (out ++ [tok])
    else if headCh tok = some '$' then toRPNAux rest stack (out ++ [tok])
    else if headCh tok = some '[' then toRPNAux rest stack (out ++ [tok])
    else if !isOperator (strLower tok) &&
        (match headCh tok with | some c => isAlphaC c | none => false) then
      toRPNAux rest stack (out ++ [tok])
    else if isQuotedTok tok then toRPNAux rest stack (out ++ [tok])
    else if isOperator (strLower tok) then
      let op := if strLower tok = "df" then "f" else strLower tok
      let (stack', out') := rpnPopOps op stack out
      toRPNAux rest (op :: stack') out'
    else if tok = "?" then toRPNAux rest ("?" :: stack) out
    else if tok = ":" then
      match rpnPopToQ stack out with
      | none => none
      | some (s', o') => toRPNAux rest s' o'
    else if tok = "(" then toRPNAux rest (tok :: stack) out
    else if tok = ")" then
      match rpnPopParen stack out with
      | none => none
      | some (s', o') => toRPNAux rest s' o'
    else none

/-- Go `toRPN`; `none` is a parse error. -/
def toRPN (tokens : List String) : Option (List String) :=
  toRPNAux tokens [] []

/-! ### Keep/drop selection (Go `selectFromMeta`) -/

/-- The Go summation loops `s := 0; for _, v := range sel { s += v }`. -/
def sumGo (l : List Int) : Int := l.foldl (· + ·) 0

/-- Go `sort.Slice(arr, func(i,j) { return arr[i] > arr[j] })` on ints:
descending order (for integer values the sorted output is unique, so the
choice of sorting algorithm is immaterial). -/
def sortDesc (l : List Int) : List Int := l.mergeSort (fun a b => decide (b ≤ a))

/-- Go `sort.Ints`: ascending order. -/
def sortAsc (l : List Int) : List Int := l.mergeSort (fun a b => decide (a ≤ b))

/-- Go `selectFromMeta`: keep/drop the highest/lowest `n` values of `src`
and return the selection together with its sum. -/
def selectFromMeta (src : List Int) (n : Int) (mode : String) : List Int × Int :=
  if src = [] then ([], 0)
  else if mode = "kh" then
    let arr := sortDesc src
    let k := if n > (arr.length : Int) then (arr.length : Int) else n
    let sel := arr.take k.toNat
    (sel, sumGo sel)
  else if mode = "kl" then
    let arr := sortAsc src
    let k := if n > (arr.length : Int) then (arr.length : Int) else n
    let sel := arr.take k.toNat
    (sel, sumGo sel)
  else if mode = "dh" then
    let arr := sortDesc src
    if n ≥ (arr.length : Int) then ([], 0)
    else
      let sel := arr.drop n.toNat
      (sel, sumGo sel)
  else if mode = "dl" then
    let arr := sortAsc src
    if n ≥ (arr.length : Int) then ([], 0)
    else
      let sel := arr.drop n.toNat
      (sel, sumGo sel)
  else ([], 0)

/-! ### Association-list maps (Go `map[int]int` / `map[string]int`) -/

/-- Map insertion: replace the binding in place or append. -/
def assocSet {α β : Type} [DecidableEq α] : List (α × β) → α → β → List (α × β)
  | [], k, v => [(k, v)]
  | (k', v') :: rest, k, v =>
    if k' = k then (k, v) :: rest else (k', v') :: assocSet rest k v

/-- The Go merge loop `for kk, vv := range sub { parent[kk] = vv }`
(creating the parent map when it is nil). -/
def mergeVT (parent : Option (List (String × Int))) (sub : List (String × Int)) :
    List (String × Int) :=
  sub.foldl (fun acc kv => assocSet acc kv.1 kv.2) (parent.getD [])

/-- Lookup in a possibly-nil variable table. -/
def vtGet? (vt : Option (List (String × Int))) (k : String) : Option Int :=
  match vt with
  | none => none
  | some m => m.lookup k

/-- The canonical temp-variable key `strings.ToUpper(fmt.Sprintf("t%d", idx))`. -/
def tempKeyUpper (idx : Int) : String := strUpper ("t" ++ itoa idx)

/-- The lower-case fallback key `fmt.Sprintf("t%d", idx)`. -/
def tempKeyLower (idx : Int) : String := "t" ++ itoa idx

/-- Index parsed from a temp token such as `$t` or `$t12`
(Go: `Atoi(tok[2:])` when the token is longer than 2 bytes, default 1). -/
def tempIdxOf (tok : String) : Int :=
  if tok.data.length > 2 then
    match atoi? (String.mk (tok.data.drop 2)) with
    | some n => n
    | none => 1
  else 1

/-- Temp-variable read (Go `$t` handling in `evalRPN`): the live temp
store first, then the variable table under `T<n>`, then `t<n>`, else 0. -/
def tempRead (st : EvalSt) (idx : Int) : Int :=
  match st.temp.lookup idx with
  | some v => v
  | none =>
    match vtGet? st.vt (tempKeyUpper idx) with
    | some v => v
    | none =>
      match vtGet? st.vt (tempKeyLower idx) with
      | some v => v
      | none => 0

/-! ### Rolling loops -/

/-- Go's `d` loop: roll `times` dice with `Intn(sides)+1`, collecting the
rolls in order and their sum. -/
def rollDice : Nat → Int → Rng → List Int × Int × Rng
  | 0, _, rng => ([], 0, rng)
  | n + 1, sides, rng =>
    let p := intn rng sides
    let rnum := p.1 + 1
    let (rest, s, rng') := rollDice n sides p.2
    (rnum :: rest, rnum + s, rng')

/-- Go's `f` loop: roll `times` fudge dice with `Intn(3)-1`. -/
def rollFudge : Nat → Rng → List Int × Int × Rng
  | 0, rng => ([], 0, rng)
  | n + 1, rng =>
    let p := intn rng 3
    let rnum := p.1 - 1
    let (rest, s, rng') := rollFudge n p.2
    (rnum :: rest, rnum + s, rng')

/-- Extra-digit loop of `b`/`p`: `param` draws of `Intn(10)`. -/
def rollDigits : Nat → Rng → List Int × Rng
  | 0, rng => ([], rng)
  | n + 1, rng =>
    let p := intn rng 10
    let (rest, rng') := rollDigits n p.2
    (p.1 :: rest, rng')

/-- Go's running-minimum loop `mn := rolls[0]; for _, v := range rolls[1:]`. -/
def foldMinGo : Int → List Int → Int
  | m, [] => m
  | m, v :: rest => foldMinGo (if v < m then v else m) rest

/-- Go's running-maximum loop. -/
def foldMaxGo : Int → List Int → Int
  | m, [] => m
  | m, v :: rest => foldMaxGo (if v > m then v else m) rest

/-- Go's `^` loop `res := 1; for i := 0; i < b; i++ { res *= a }`. -/
def powGo (a : Int) : Nat → Int
  | 0 => 1
  | n + 1 => powGo a n * a

/-! ### Chain operators `a`, `c` (and their `_m` variants)

The Go loops append each roll to `meta`; here `metaRev` accumulates the
rolls in reverse (same length, reversed once on exit), which keeps kernel
evaluation linear. -/

/-- One round of the `a` chain: roll `cur` dice; every roll that meets
the threshold increments both the next round's size and the total. -/
def chainAInner (m threshold : Int) :
    Nat → Rng → List Int → Nat → Int → Rng × List Int × Nat × Int
  | 0, rng, metaRev, nc, total => (rng, metaRev, nc, total)
  | cur + 1, rng, metaRev, nc, total =>
    let p := intn rng m
    let rnum := p.1 + 1
    chainAInner m threshold cur p.2 (rnum :: metaRev)
      (if rnum ≥ threshold then nc + 1 else nc)
      (if rnum ≥ threshold then total + 1 else total)

/-- The `a` chain round loop: repeat while the next round is non-empty,
breaking after any round that pushed the roll count past 10000. -/
def chainALoop (m threshold : Int) :
    Nat → Nat → Rng → List Int → Int → Option (Rng × List Int × Int)
  | 0, _, _, _, _ => none
  | fuel + 1, nextCount, rng, metaRev, total =>
    if nextCount = 0 then some (rng, metaRev, total)
    else
      let (rng', metaRev', nc', total') :=
        chainAInner m threshold nextCount rng metaRev 0 total
      if metaRev'.length > 10000 then some (rng', metaRev', total')
      else chainALoop m threshold fuel nc' rng' metaRev' total'

/-- One round of the `c` chain: roll `cur` dice, tracking the round's
maximum and the number of threshold-meeting rolls. -/
def chainCInner (m threshold : Int) :
    Nat → Rng → List Int → Nat → Int → Rng × List Int × Nat × Int
  | 0, rng, metaRev, nc, maxv => (rng, metaRev, nc, maxv)
  | cur + 1, rng, metaRev, nc, maxv =>
    let p := intn rng m
    let rnum := p.1 + 1
    chainCInner m threshold cur p.2 (rnum :: metaRev)
      (if rnum ≥ threshold then nc + 1 else nc)
      (if rnum > maxv then rnum else maxv)

/-- The `c` chain round loop: add each round's maximum to the total. -/
def chainCLoop (m threshold : Int) :
    Nat → Nat → Rng → List Int → Int → Option (Rng × List Int × Int)
  | 0, _, _, _, _ => none
  | fuel + 1, nextCount, rng, metaRev, total =>
    if nextCount = 0 then some (rng, metaRev, total)
    else
      let (rng', metaRev', nc', maxv) :=
        chainCInner m threshold nextCount rng metaRev 0 0
      if metaRev'.length > 10000 then some (rng', metaRev', total + maxv)
      else chainCLoop m threshold fuel nc' rng' metaRev' (total + maxv)

/-! ### Tuple-literal parsing (inline in Go `evalRPN`) -/

/-- Comma split of a tuple's inner text at nesting depth 0, with string
contents passed through verbatim.  `sb` is the current element's
characters in reverse. -/
def splitElemsGo : List Char → List Char → Int → Bool → List String → List String
  | [], sb, _, _, elems =>
    if sb.length > 0 then elems ++ [String.mk (trimWS sb.reverse)] else elems
  | ch :: rest, sb, depth, inStr, elems =>
    if ch = '"' then splitElemsGo rest (ch :: sb) depth (!inStr) elems
    else if inStr then splitElemsGo rest (ch :: sb) depth inStr elems
    else
      let depth' :=
        if ch = '(' || ch = '[' then depth + 1
        else if ch = ')' || ch = ']' then depth - 1
        else depth
      if ch = ',' && depth' = 0 then
        splitElemsGo rest [] depth' inStr (elems ++ [String.mk (trimWS sb.reverse)])
      else splitElemsGo rest (ch :: sb) depth' inStr elems

/-- Classification of tuple elements: empty elements are skipped, integer
literals and other elements are collected separately, in order. -/
def classifyElems : List String → List Int × List String
  | [] => ([], [])
  | el :: rest =>
    let (is, ss) := classifyElems rest
    if el = "" then (is, ss)
    else
      match atoi? el with
      | some v => (v :: is, ss)
      | none => (is, el :: ss)

/-- The tuple-literal branch of Go `evalRPN`: all-integer tuples become
an integer meta list, all-non-integer tuples a string list, and mixed
tuples a string list of every element's raw text. -/
def parseTupleTok (tok : String) : Value :=
  let inner := (tok.data.drop 1).dropLast
  let elems := splitElemsGo inner [] 0 false []
  let (metaInts, metaStrs) := classifyElems elems
  if metaStrs ≠ [] ∧ metaInts ≠ [] then ⟨0, none, true, 0, false, some elems⟩
  else if metaStrs ≠ [] then ⟨0, none, true, 0, false, some metaStrs⟩
  else ⟨0, some metaInts, true, 0, false, none⟩

/-! ### `lp` string templates -/

/-- `strings.ReplaceAll(tmpl, "\x7bi\x7d", itoa idx)` on the fixed
marker `{i}`. -/
def replaceIMarker (repl : List Char) : List Char → List Char
  | '\x7b' :: 'i' :: '\x7d' :: rest => repl ++ replaceIMarker repl rest
  | c :: rest => c :: replaceIMarker repl rest
  | [] => []

/-- One pass over the templates, substituting the running counter. -/
def lpBatch : List String → Nat → List String × Nat
  | [], idx => ([], idx)
  | tmpl :: rest, idx =>
    let s := String.mk (replaceIMarker (itoa (idx : Int)).data tmpl.data)
    let (bs, idx') := lpBatch rest (idx + 1)
    (s :: bs, idx')

/-- The `lp` template loop: `times` passes with a strictly increasing
1-based counter across all templates and repetitions. -/
def lpRepeat (templates : List String) : Nat → Nat → List String
  | 0, _ => []
  | t + 1, idx =>
    let (batch, idx') := lpBatch templates idx
    batch ++ lpRepeat templates t idx'

/-- Go's numeric `lp` concatenation loop. -/
def repeatList (l : List Int) : Nat → List Int
  | 0 => []
  | n + 1 => l ++ repeatList l n

/-- The element-wise clamping loop of `min`/`max` with its running sum. -/
def minmaxLoop (isMax : Bool) (n : Int) : List Int → List Int × Int
  | [] => ([], 0)
  | rv :: rest =>
    let rv' :=
      if isMax then (if rv > n then n else rv)
      else (if rv < n then n else rv)
    let (l, s) := minmaxLoop isMax n rest
    (rv' :: l, rv' + s)

/-- The scalar a numeric operator extracts from an operand
(Go: the last meta element when meta is enabled and non-empty, else `V`). -/
def lastMetaOrV (v : Value) : Int :=
  if v.MetaEnable ∧ (v.Meta.getD []) ≠ [] then (v.Meta.getD []).getLast?.getD v.V
  else v.V

/-! ### Variable substitution (Go `replaceVars`) -/

/-- Split at the first `\x7d`, returning the content before it. -/
def braceSplit : List Char → Option (List Char × List Char)
  | [] => none
  | c :: rest =>
    if c = '\x7d' then some ([], rest)
    else (braceSplit rest).map (fun p => (c :: p.1, p.2))

/-- `strings.Trim(m, "\x7b\x7d")`: strip braces from both ends. -/
def trimBraces (l : List Char) : List Char :=
  let isBr := fun c => c = '\x7b' || c = '\x7d'
  ((l.dropWhile isBr).reverse.dropWhile isBr).reverse

/-- The scan of Go `replaceVars` over the regexp `\x7b([^\x7d]+)\x7d`:
leftmost matches, replaced text not rescanned, unmatched placeholders and
unknown keys left verbatim. -/
def replaceVarsChars (m : List (String × Int)) (fuel : Nat) (l : List Char) :
    List Char :=
  match fuel with
  | 0 => l
  | fuel + 1 =>
    match l with
    | [] => []
    | c :: rest =>
      if c = '\x7b' then
        match braceSplit rest with
        | some (content, after) =>
          if content ≠ [] then
            let key := trimBraces content
            let up := strUpper (String.mk key)
            match m.lookup up with
            | some v => (itoa v).data ++ replaceVarsChars m fuel after
            | none =>
              (c :: content ++ ['\x7d']) ++ replaceVarsChars m fuel after
          else c :: replaceVarsChars m fuel rest
        | none => c :: replaceVarsChars m fuel rest
      else c :: replaceVarsChars m fuel rest

/-- Go `replaceVars` (a nil table skips substitution; the Go error return
is always nil). -/
def replaceVars (vt : Option (List (String × Int))) (s : String) : String :=
  match vt with
  | none => s
  | some m => String.mk (replaceVarsChars m (s.data.length + 1) s.data)

/-! ### Detail string (Go `buildDetail`) -/

/-- `strings.Join`. -/
def joinSep (sep : String) : List String → String
  | [] => ""
  | [x] => x
  | x :: rest => x ++ sep ++ joinSep sep rest

/-- Byte-wise (ASCII) string order used to model `sort.Strings`. -/
def charListLe : List Char → List Char → Bool
  | [], _ => true
  | _ :: _, [] => false
  | a :: as, b :: bs =>
    if a = b then charListLe as bs else decide (a.toNat ≤ b.toNat)

/-- Go `buildDetail`: the value, the meta list, and sorted snapshots of
the temp store and variable table.  (The Go min/max clause compares
`res.Min` with `res.Max`, which `Roll` has just set to the same value,
so it never fires.) -/
def buildDetail (st : EvalSt) (val : Value) : String :=
  let parts0 := [itoa val.V]
  let parts1 :=
    if val.MetaEnable then
      match val.MetaStr with
      | some l =>
        if l ≠ [] then
          parts0 ++ ["[" ++ joinSep "," (l.map (fun s => "\"" ++ s ++ "\"")) ++ "]"]
        else
          match val.Meta with
          | some li => parts0 ++ ["[" ++ joinSep "," (li.map itoa) ++ "]"]
          | none => parts0
      | none =>
        match val.Meta with
        | some li => parts0 ++ ["[" ++ joinSep "," (li.map itoa) ++ "]"]
        | none => parts0
    else parts0
  let parts2 :=
    if st.temp ≠ [] then
      let keys := (st.temp.map Prod.fst).mergeSort (fun a b => decide (a ≤ b))
      let kvs := keys.map (fun k => "t" ++ itoa k ++ "=" ++ itoa ((st.temp.lookup k).getD 0))
      parts1 ++ ["temp:\x7b" ++ joinSep "," kvs ++ "\x7d"]
    else parts1
  let parts3 :=
    match st.vt with
    | some mvt =>
      if mvt ≠ [] then
        let keys := (mvt.map Prod.fst).mergeSort (fun a b => charListLe a.data b.data)
        let kvs := keys.map (fun k => k ++ "=" ++ itoa ((mvt.lookup k).getD 0))
        parts2 ++ ["vt:\x7b" ++ joinSep "," kvs ++ "\x7d"]
      else parts2
    | none => parts2
  joinSep " " parts3

/-! ### Scan helpers of the ternary dispatcher (Go `evalTokens`) -/

/-- Backward scan for the `(` matching the `)` at index `k`
(Go: `d := 0; for k := i; k >= 0; k--`). -/
def matchOpen (tokens : List String) : Nat → Int → Option Nat
  | k, d =>
    let tk := tokens.getD k ""
    let d2 := d + (if tk = ")" then 1 else 0) - (if tk = "(" then 1 else 0)
    if d2 = 0 then some k
    else
      match k with
      | 0 => none
      | k' + 1 => matchOpen tokens k' d2

/-- Forward scan of Go `evalTokens` for the first `)` whose matching `(`
is not immediately preceded by `?` or `:`; a `)` with no matching `(` is
a fatal error. -/
def findFoldScan (tokens : List String) : Nat → Nat → Except ErrorType (Option (Nat × Nat))
  | _, 0 => .ok none
  | i, rem + 1 =>
    if tokens.getD i "" = ")" then
      match matchOpen tokens i 0 with
      | none => .error .unknownGenerate
      | some oi =>
        if 0 < oi ∧ (tokens.getD (oi - 1) "" = "?" ∨ tokens.getD (oi - 1) "" = ":") then
          findFoldScan tokens (i + 1) rem
        else .ok (some (oi, i))
    else findFoldScan tokens (i + 1) rem

/-- Forward scan for the `)` matching the `(` at index 0. -/
def findMatchFwd (tokens : List String) : Nat → Nat → Int → Option Nat
  | _, 0, _ => none
  | i, rem + 1, d =>
    let tk := tokens.getD i ""
    let d2 := d + (if tk = "(" then 1 else 0) - (if tk = ")" then 1 else 0)
    if d2 = 0 then some i else findMatchFwd tokens (i + 1) rem d2

/-- The outer-parenthesis stripping loop of Go `evalTokens`. -/
def stripOuter (fuel : Nat) (tokens : List String) : List String :=
  match fuel with
  | 0 => tokens
  | fuel + 1 =>
    if tokens.length ≥ 2 ∧ tokens.head? = some "(" then
      match findMatchFwd tokens 0 tokens.length 0 with
      | some mtch =>
        if mtch = tokens.length - 1 then stripOuter fuel ((tokens.drop 1).dropLast)
        else tokens
      | none => tokens
    else tokens

/-- Scan for a top-level `?` (depth-tracked over parentheses). -/
def findTopQ (tokens : List String) : Nat → Nat → Int → Option Nat
  | _, 0, _ => none
  | i, rem + 1, depth =>
    let tk := tokens.getD i ""
    if tk = "(" then findTopQ tokens (i + 1) rem (depth + 1)
    else if tk = ")" then findTopQ tokens (i + 1) rem (depth - 1)
    else if tk = "?" ∧ depth = 0 then some i
    else findTopQ tokens (i + 1) rem depth

/-- Scan for the `:` matching a top-level `?`, counting nested `?`/`:`
pairs at depth 0 (Go's inner `j` loop). -/
def findQMatch (tokens : List String) : Nat → Nat → Int → Int → Option Nat
  | _, 0, _, _ => none
  | j, rem + 1, depth, qcount =>
    let tk := tokens.getD j ""
    let depth2 := depth + (if tk = "(" then 1 else 0) - (if tk = ")" then 1 else 0)
    if tk = "?" ∧ depth2 = 0 then findQMatch tokens (j + 1) rem depth2 (qcount + 1)
    else if tk = ":" ∧ depth2 = 0 then
      if qcount - 1 = 0 then some j
      else findQMatch tokens (j + 1) rem depth2 (qcount - 1)
    else findQMatch tokens (j + 1) rem depth2 qcount

/-! ### The evaluator

All functions of the Go call cycle
`evalTokens → evalRPN → resolveMetaValues → getFromMetaTuple → Roll`
live in one mutual block, structurally recursive on a fuel argument that
every call decrements; exhaustion surfaces as `unknownGenerate` (or a
failed resolution), and the concrete theorems below use ample fuel. -/

mutual

/-- Go `evalTokens`: eagerly fold parenthesized groups that are not
ternary branches, strip outer parentheses, then either dispatch a
top-level `?:` (evaluating only the selected branch) or preprocess,
convert to RPN and run the stack evaluator. -/
def evalTokens : Nat → EvalSt → List String → Except ErrorType (Value × EvalSt)
  | 0, _, _ => .error .unknownGenerate
  | fuel + 1, st, tokens =>
    match evalTokensFold fuel st tokens with
    | .error e => .error e
    | .ok (tokens1, st1) =>
      let tokens2 := stripOuter (tokens1.length + 1) tokens1
      match findTopQ tokens2 0 tokens2.length 0 with
      | some i =>
        match findQMatch tokens2 (i + 1) (tokens2.length - (i + 1)) 0 1 with
        | none => .error .unknownGenerate
        | some j =>
          let condToks := tokens2.take i
          let trueToks := (tokens2.drop (i + 1)).take (j - (i + 1))
          let falseToks := tokens2.drop (j + 1)
          match evalTokens fuel st1 condToks with
          | .error e => .error e
          | .ok (condVal, st2) =>
            if condVal.V ≠ 0 then evalTokens fuel st2 trueToks
            else evalTokens fuel st2 falseToks
      | none =>
        let pp := preProcessTokens tokens2 st1.defaultFaces
        match toRPN pp with
        | none => .error .unknownGenerate
        | some rpn => evalRPN fuel st1 rpn

/-- The paren-folding loop of Go `evalTokens`: find an eligible group,
evaluate it recursively (keeping its side effects), splice its value back
as a literal token, repeat. -/
def evalTokensFold : Nat → EvalSt → List String → Except ErrorType (List String × EvalSt)
  | 0, _, _ => .error .unknownGenerate
  | fuel + 1, st, tokens =>
    match findFoldScan tokens 0 tokens.length with
    | .error e => .error e
    | .ok none => .ok (tokens, st)
    | .ok (some (openIdx, closeIdx)) =>
      let inner := (tokens.drop (openIdx + 1)).take (closeIdx - (openIdx + 1))
      match evalTokens fuel st inner with
      | .error e => .error e
      | .ok (v, st') =>
        let newTok := tokens.take openIdx ++ [itoa v.V] ++ tokens.drop (closeIdx + 1)
        evalTokensFold fuel st' newTok

/-- Go `evalRPN`: run the stack machine over the whole token list; the
stack must hold exactly one value at the end. -/
def evalRPN : Nat → EvalSt → List String → Except ErrorType (Value × EvalSt)
  | 0, _, _ => .error .unknownGenerate
  | fuel + 1, st, rpn =>
    match evalRPNList fuel st [] rpn with
    | .error e => .error e
    | .ok (stack, st') =>
      match stack with
      | [v] => .ok (v, st')
      | _ => .error .unknownGenerate

/-- The token loop of Go `evalRPN`. -/
def evalRPNList : Nat → EvalSt → List Value → List String →
    Except ErrorType (List Value × EvalSt)
  | 0, _, _, _ => .error .unknownGenerate
  | fuel + 1, st, stack, tokens =>
    match tokens with
    | [] => .ok (stack, st)
    | tok :: rest =>
      match evalStep fuel st stack tok with
      | .error e => .error e
      | .ok (stack', st') => evalRPNList fuel st' stack' rest

/-- One token of Go `evalRPN`: operand pushes and every operator case,
in the source's dispatch order. -/
def evalStep : Nat → EvalSt → List Value → String → Except ErrorType (List Value × EvalSt)
  | 0, _, _, _ => .error .unknownGenerate
  | fuel + 1, st, stack, tok =>
    match atoi? tok with
    | some v => .ok (Value.scalar v :: stack, st)
    | none =>
      if tok.data.length ≥ 2 ∧ headCh tok = some '[' ∧ tok.data.getLast? = some ']' then
        .ok (parseTupleTok tok :: stack, st)
      else if isQuotedTok tok then
        let content := (tok.data.drop 1).dropLast
        .ok (⟨0, none, true, 0, false, some [String.mk content]⟩ :: stack, st)
      else if headCh tok = some '$' then
        let idx := tempIdxOf tok
        .ok (⟨tempRead st idx, none, false, idx, true, none⟩ :: stack, st)
      else
        match tok with
        | ":" =>
          match stack with
          | c :: b :: a :: rest =>
            .ok ((if a.V ≠ 0 then b else c) :: rest, st)
          | _ => .error .nodeStackEmpty
        | "+" =>
          match stack with
          | b :: a :: rest => .ok (Value.scalar (a.V + b.V) :: rest, st)
          | _ => .error .nodeStackEmpty
        | "-" =>
          match stack with
          | b :: a :: rest => .ok (Value.scalar (a.V - b.V) :: rest, st)
          | _ => .error .nodeStackEmpty
        | "*" =>
          match stack with
          | b :: a :: rest => .ok (Value.scalar (a.V * b.V) :: rest, st)
          | _ => .error .nodeStackEmpty
        | "/" =>
          match stack with
          | b :: a :: rest =>
            if b.V = 0 then .error .nodeRightValInvalid
            else .ok (Value.scalar (Int.tdiv a.V b.V) :: rest, st)
          | _ => .error .nodeStackEmpty
        | ">" =>
          match stack with
          | b :: a :: rest =>
            .ok (Value.scalar (if a.V > b.V then 1 else 0) :: rest, st)
          | _ => .error .nodeStackEmpty
        | "<" =>
          match stack with
          | b :: a :: rest =>
            .ok (Value.scalar (if a.V < b.V then 1 else 0) :: rest, st)
          | _ => .error .nodeStackEmpty
        | "&" =>
          match stack with
          | b :: a :: rest => .ok (Value.scalar (Int.land a.V b.V) :: rest, st)
          | _ => .error .nodeStackEmpty
        | "|" =>
          match stack with
          | b :: a :: rest => .ok (Value.scalar (Int.lor a.V b.V) :: rest, st)
          | _ => .error .nodeStackEmpty
        | "^" =>
          match stack with
          | b :: a :: rest =>
            if a.V = 0 ∧ b.V = 0 then .error .nodeLeftValInvalid
            else if b.V < 0 then .error .nodeRightValInvalid
            else .ok (Value.scalar (powGo a.V b.V.toNat) :: rest, st)
          | _ => .error .nodeStackEmpty
        | "d" =>
          match stack with
          | sidesV :: timesV :: rest =>
            let sides := lastMetaOrV sidesV
            let times := lastMetaOrV timesV
            if times ≤ 0 ∨ times > 10000 then .error .nodeLeftValInvalid
            else if sides ≤ 0 ∨ sides > 10000 then .error .nodeRightValInvalid
            else
              let (rolls, sum, rng') := rollDice times.toNat sides st.rng
              .ok (⟨sum, some rolls, true, 0, false, none⟩ :: rest,
                { st with rng := rng' })
          | _ => .error .nodeStackEmpty
        | "k" =>
          match stack with
          | param :: left :: rest =>
            if param.V ≤ 0 then .error .nodeRightValInvalid
            else
              match resolveMetaValues fuel st left with
              | (none, st') => let _ := st'; .error .nodeLeftValInvalid
              | (some rolls, st') =>
                let (sel, s) := selectFromMeta rolls param.V "kh"
                .ok (⟨s, some sel, decide (sel.length > 0), 0, false, none⟩ :: rest, st')
          | _ => .error .nodeStackEmpty
        | "q" =>
          match stack with
          | param :: left :: rest =>
            if param.V ≤ 0 then .error .nodeRightValInvalid
            else
              match resolveMetaValues fuel st left with
              | (none, st') => let _ := st'; .error .nodeLeftValInvalid
              | (some rolls, st') =>
                let (sel, s) := selectFromMeta rolls param.V "kl"
                .ok (⟨s, some sel, decide (sel.length > 0), 0, false, none⟩ :: rest, st')
          | _ => .error .nodeStackEmpty
        | "a" =>
          match stack with
          | rightV :: leftV :: rest =>
            let times := leftV.V
            let threshold := rightV.V
            if times < 0 ∨ times > 10000 then .error .nodeLeftValInvalid
            else if threshold ≤ 0 ∨ threshold > 10000 then .error .nodeRightValInvalid
            else
              match chainALoop 10 threshold 10002 times.toNat st.rng [] 0 with
              | none => .error .unknownGenerate
              | some (rng', metaRev, total) =>
                let meta := metaRev.reverse
                .ok (⟨total, some meta, decide (meta.length > 0), 0, false, none⟩ :: rest,
                  { st with rng := rng' })
          | _ => .error .nodeStackEmpty
        | "a_m" =>
          match stack with
          | facesV :: rightV :: leftV :: rest =>
            let times := leftV.V
            let threshold := rightV.V
            let m := facesV.V
            if times < 0 ∨ times > 10000 then .error .nodeLeftValInvalid
            else if threshold ≤ 0 ∨ threshold > 10000 then .error .nodeRightValInvalid
            else if m ≤ 0 ∨ m > 10000 then .error .nodeRightValInvalid
            else
              match chainALoop m threshold 10002 times.toNat st.rng [] 0 with
              | none => .error .unknownGenerate
              | some (rng', metaRev, total) =>
                let meta := metaRev.reverse
                .ok (⟨total, some meta, decide (meta.length > 0), 0, false, none⟩ :: rest,
                  { st with rng := rng' })
          | _ => .error .nodeStackEmpty
        | "c" =>
          match stack with
          | rightC :: leftC :: rest =>
            let timesC := leftC.V
            let thresholdC := rightC.V
            if timesC < 0 ∨ timesC > 10000 then .error .nodeLeftValInvalid
            else if thresholdC ≤ 0 ∨ thresholdC > 10000 then .error .nodeRightValInvalid
            else
              match chainCLoop 10 thresholdC 10002 timesC.toNat st.rng [] 0 with
              | none => .error .unknownGenerate
              | some (rng', metaRev, total) =>
                let meta := metaRev.reverse
                .ok (⟨total, some meta, decide (meta.length > 0), 0, false, none⟩ :: rest,
                  { st with rng := rng' })
          | _ => .error .nodeStackEmpty
        | "c_m" =>
          match stack with
          | facesV :: rightV :: leftV :: rest =>
            let timesC := leftV.V
            let thresholdC := rightV.V
            let mC := facesV.V
            if timesC < 0 ∨ timesC > 10000 then .error .nodeLeftValInvalid
            else if thresholdC ≤ 0 ∨ thresholdC > 10000 then .error .nodeRightValInvalid
            else if mC ≤ 0 ∨ mC > 10000 then .error .nodeRightValInvalid
            else
              match chainCLoop mC thresholdC 10002 timesC.toNat st.rng [] 0 with
              | none => .error .unknownGenerate
              | some (rng', metaRev, total) =>
                let meta := metaRev.reverse
                .ok (⟨total, some meta, decide (meta.length > 0), 0, false, none⟩ :: rest,
                  { st with rng := rng' })
          | _ => .error .nodeStackEmpty
        | "b" =>
          match stack with
          | paramB :: leftB :: rest =>
            if paramB.V < 0 then .error .nodeRightValInvalid
            else if paramB.V > 10000 then .error .nodeRightValInvalid
            else if leftB.V > 10000 then .error .nodeLeftValInvalid
            else
              let p1 := intn st.rng 10
              let p2 := intn p1.2 10
              let tens0 := p1.1
              let units := p2.1
              let (rolls, rng') := rollDigits paramB.V.toNat p2.2
              let res :=
                if tens0 = 0 ∧ units = 0 then (100, tens0)
                else
                  let tens1 :=
                    match rolls with
                    | [] => tens0
                    | r0 :: rs => foldMinGo r0 rs
                  (tens1 * 10 + units, tens1)
              let meta := res.2 :: units :: rolls
              .ok (⟨res.1, some meta, decide (meta.length > 0), 0, false, none⟩ :: rest,
                { st with rng := rng' })
          | _ => .error .nodeStackEmpty
        | "p" =>
          match stack with
          | paramP :: leftP :: rest =>
            if paramP.V < 0 then .error .nodeRightValInvalid
            else if paramP.V > 10000 then .error .nodeRightValInvalid
            else if leftP.V > 10000 then .error .nodeLeftValInvalid
            else
              let p1 := intn st.rng 10
              let p2 := intn p1.2 10
              let tens0 := p1.1
              let units := p2.1
              let (rollsP, rng') := rollDigits paramP.V.toNat p2.2
              let res :=
                if tens0 = 0 ∧ units = 0 then (100, tens0)
                else
                  let tens1 :=
                    match rollsP with
                    | [] => tens0
                    | r0 :: rs => foldMaxGo r0 rs
                  (tens1 * 10 + units, tens1)
              let metaP := res.2 :: units :: rollsP
              .ok (⟨res.1, some metaP, decide (metaP.length > 0), 0, false, none⟩ :: rest,
                { st with rng := rng' })
          | _ => .error .nodeStackEmpty
        | "=" =>
          match stack with
          | rightA :: leftA :: rest =>
            if !leftA.IsTemp then .error .nodeLeftValInvalid
            else
              let temp' := assocSet st.temp leftA.TempIndex rightA.V
              let vt' := some (assocSet (st.vt.getD []) (tempKeyUpper leftA.TempIndex) rightA.V)
              .ok (Value.scalar rightA.V :: rest, { st with temp := temp', vt := vt' })
          | _ => .error .nodeStackEmpty
        | "lp" =>
          match stack with
          | paramLp :: leftLp :: rest =>
            if paramLp.V ≤ 0 then .error .nodeRightValInvalid
            else
              match leftLp.MetaStr with
              | some templates =>
                if templates ≠ [] then
                  let outList := lpRepeat templates paramLp.V.toNat 1
                  .ok (⟨0, none, true, 0, false, some outList⟩ :: rest, st)
                else
                  match resolveMetaValues fuel st leftLp with
                  | (none, st') => let _ := st'; .error .nodeLeftValInvalid
                  | (some rollsLp, st') =>
                    let newList := repeatList rollsLp paramLp.V.toNat
                    .ok (⟨sumGo newList, some newList, decide (newList.length > 0), 0,
                      false, none⟩ :: rest, st')
              | none =>
                match resolveMetaValues fuel st leftLp with
                | (none, st') => let _ := st'; .error .nodeLeftValInvalid
                | (some rollsLp, st') =>
                  let newList := repeatList rollsLp paramLp.V.toNat
                  .ok (⟨sumGo newList, some newList, decide (newList.length > 0), 0,
                    false, none⟩ :: rest, st')
          | _ => .error .nodeStackEmpty
        | "kh" =>
          match stack with
          | paramOp :: leftOp :: rest =>
            if paramOp.V ≤ 0 then .error .nodeRightValInvalid
            else
              match resolveMetaValues fuel st leftOp with
              | (none, st') => let _ := st'; .error .nodeLeftValInvalid
              | (some rollsRaw, st') =>
                if rollsRaw.length = 0 then .error .nodeLeftValInvalid
                else
                  let (sel, sum) := selectFromMeta rollsRaw paramOp.V "kh"
                  .ok (⟨sum, some sel, decide (sel.length > 0), 0, false, none⟩ :: rest, st')
          | _ => .error .nodeStackEmpty
        | "kl" =>
          match stack with
          | paramOp :: leftOp :: rest =>
            if paramOp.V ≤ 0 then .error .nodeRightValInvalid
            else
              match resolveMetaValues fuel st leftOp with
              | (none, st') => let _ := st'; .error .nodeLeftValInvalid
              | (some rollsRaw, st') =>
                if rollsRaw.length = 0 then .error .nodeLeftValInvalid
                else
                  let (sel, sum) := selectFromMeta rollsRaw paramOp.V "kl"
                  .ok (⟨sum, some sel, decide (sel.length > 0), 0, false, none⟩ :: rest, st')
          | _ => .error .nodeStackEmpty
        | "dh" =>
          match stack with
          | paramOp :: leftOp :: rest =>
            if paramOp.V ≤ 0 then .error .nodeRightValInvalid
            else
              match resolveMetaValues fuel st leftOp with
              | (none, st') => let _ := st'; .error .nodeLeftValInvalid
              | (some rollsRaw, st') =>
                if rollsRaw.length = 0 then .error .nodeLeftValInvalid
                else
                  let (sel, sum) := selectFromMeta rollsRaw paramOp.V "dh"
                  .ok (⟨sum, some sel, decide (sel.length > 0), 0, false, none⟩ :: rest, st')
          | _ => .error .nodeStackEmpty
        | "dl" =>
          match stack with
          | paramOp :: leftOp :: rest =>
            if paramOp.V ≤ 0 then .error .nodeRightValInvalid
            else
              match resolveMetaValues fuel st leftOp with
              | (none, st') => let _ := st'; .error .nodeLeftValInvalid
              | (some rollsRaw, st') =>
                if rollsRaw.length = 0 then .error .nodeLeftValInvalid
                else
                  let (sel, sum) := selectFromMeta rollsRaw paramOp.V "dl"
                  .ok (⟨sum, some sel, decide (sel.length > 0), 0, false, none⟩ :: rest, st')
          | _ => .error .nodeStackEmpty
        | "min" =>
          match stack with
          | paramOp2 :: leftOp2 :: rest =>
            if paramOp2.V ≤ 0 then .error .nodeRightValInvalid
            else
              let rollsRaw2 :=
                if !leftOp2.MetaEnable then [leftOp2.V] else leftOp2.Meta.getD []
              let (resList, sum2) := minmaxLoop false paramOp2.V rollsRaw2
              .ok (⟨sum2, some resList, true, 0, false, none⟩ :: rest, st)
          | _ => .error .nodeStackEmpty
        | "max" =>
          match stack with
          | paramOp2 :: leftOp2 :: rest =>
            if paramOp2.V ≤ 0 then .error .nodeRightValInvalid
            else
              let rollsRaw2 :=
                if !leftOp2.MetaEnable then [leftOp2.V] else leftOp2.Meta.getD []
              let (resList, sum2) := minmaxLoop true paramOp2.V rollsRaw2
              .ok (⟨sum2, some resList, true, 0, false, none⟩ :: rest, st)
          | _ => .error .nodeStackEmpty
        | "f" =>
          match stack with
          | rightF :: leftF :: rest =>
            if rightF.V ≤ 1 ∨ rightF.V > 10000 then .error .nodeRightValInvalid
            else if leftF.V ≤ 0 ∨ leftF.V > 10000 then .error .nodeLeftValInvalid
            else
              let (rollsF, sumF, rng') := rollFudge leftF.V.toNat st.rng
              .ok (⟨sumF, some rollsF, true, 0, false, none⟩ :: rest,
                { st with rng := rng' })
          | _ => .error .nodeStackEmpty
        | "sp" =>
          match stack with
          | paramSp :: leftSp :: rest =>
            let idx := paramSp.V
            if !leftSp.MetaEnable then
              if idx = 1 ∨ idx = -1 then
                .ok (⟨leftSp.V, some [leftSp.V], true, 0, false, none⟩ :: rest, st)
              else .error .nodeLeftValInvalid
            else
              let rollsSp := leftSp.Meta.getD []
              if idx = 0 then .error .nodeRightValInvalid
              else
                let pos := if idx > 0 then idx - 1 else (rollsSp.length : Int) + idx
                if pos < 0 ∨ pos ≥ (rollsSp.length : Int) then .error .nodeRightValInvalid
                else
                  let v := rollsSp.getD pos.toNat 0
                  .ok (⟨v, some [v], true, 0, false, none⟩ :: rest, st)
          | _ => .error .nodeStackEmpty
        | "tp" =>
          match stack with
          | paramTp :: leftTp :: rest =>
            let idx2 := paramTp.V
            if !leftTp.MetaEnable then
              if idx2 = 1 ∨ idx2 = -1 then
                .ok (⟨0, some [], false, 0, false, none⟩ :: rest, st)
              else .error .nodeLeftValInvalid
            else
              let rollsTp := leftTp.Meta.getD []
              if idx2 = 0 then .error .nodeRightValInvalid
              else
                let pos2 := if idx2 > 0 then idx2 - 1 else (rollsTp.length : Int) + idx2
                if pos2 < 0 ∨ pos2 ≥ (rollsTp.length : Int) then .error .nodeRightValInvalid
                else
                  let newList := rollsTp.take pos2.toNat ++ rollsTp.drop (pos2.toNat + 1)
                  .ok (⟨sumGo newList, some newList, decide (newList.length > 0), 0,
                    false, none⟩ :: rest, st)
          | _ => .error .nodeStackEmpty
        | _ => .error .unknownGenerate

/-- Go `resolveMetaValues`: a non-meta value resolves to `[V]`, an
integer meta list to itself, a non-empty string list by evaluating each
element through the full pipeline (shared variable table, shared random
stream); anything else fails. -/
def resolveMetaValues : Nat → EvalSt → Value → Option (List Int) × EvalSt
  | 0, st, _ => (none, st)
  | fuel + 1, st, v =>
    if !v.MetaEnable then (some [v.V], st)
    else
      match v.Meta with
      | some l => (some l, st)
      | none =>
        match v.MetaStr with
        | some l =>
          if l ≠ [] then getFromMetaTuple fuel st (l.map MetaItem.str) true
          else (none, st)
        | none => (none, st)

/-- Go `getFromMetaTuple` (its `flagLast` parameter is `false` at every
call site, so the result-propagation branch is omitted): evaluate string
elements as sub-expressions through a fresh `RD` sharing the random
stream; with `flagUpdate` the sub table is merged back (the Go map is in
fact aliased when non-nil).  A failing element aborts with `none`
(Go returns an empty slice). -/
def getFromMetaTuple : Nat → EvalSt → List MetaItem → Bool →
    Option (List Int) × EvalSt
  | 0, st, _, _ => (none, st)
  | fuel + 1, st, data, flagUpdate =>
    match data with
    | [] => (some [], st)
    | .int v :: rest =>
      let (r, st') := getFromMetaTuple fuel st rest flagUpdate
      (r.map (v :: ·), st')
    | .str s :: rest =>
      let subVT := st.vt
      let (result, stSub) := rollFull fuel s subVT st.rng
      if result.Error = none then
        let vt' :=
          if flagUpdate then
            match stSub.vt with
            | some subM => some (mergeVT st.vt subM)
            | none => st.vt
          else st.vt
        let st1 : EvalSt := { st with vt := vt', rng := stSub.rng }
        let (r, st2) := getFromMetaTuple fuel st1 rest flagUpdate
        (r.map (result.Value :: ·), st2)
      else
        let vt' :=
          if flagUpdate then
            match st.vt with
            | some _ => stSub.vt
            | none => st.vt
          else st.vt
        (none, { st with vt := vt', rng := stSub.rng })

/-- Go `New` followed by `Roll`: lower-case the source, substitute
variables, tokenize, evaluate, then assemble the `Result` (detail string
before meta resolution, as in the source).  Returns the result together
with the `RD`'s final mutable state. -/
def rollFull : Nat → String → Option (List (String × Int)) → Rng → Result × EvalSt
  | 0, _, vt, rng => (⟨0, 0, 0, "", [], some .unknownGenerate⟩, ⟨vt, [], rng, 100⟩)
  | fuel + 1, expr, vt, rng =>
    let origin := strLower expr
    let st0 : EvalSt := ⟨vt, [], rng, 100⟩
    let s := replaceVars vt origin
    match tokenize s with
    | none => (⟨0, 0, 0, "", [], some .inputRawInvalid⟩, st0)
    | some toks =>
      match evalTokens fuel st0 toks with
      | .error e => (⟨0, 0, 0, "", [], some e⟩, st0)
      | .ok (val, st1) =>
        let detail := buildDetail st1 val
        if val.MetaEnable then
          match val.MetaStr with
          | some l =>
            if l ≠ [] then
              (⟨val.V, val.V, val.V, detail, l.map MetaItem.str, none⟩, st1)
            else
              let metaItems := (val.Meta.getD []).map MetaItem.int
              let (r, st2) := getFromMetaTuple fuel st1 metaItems true
              let metaTuple :=
                match r with
                | some res =>
                  if res.length = metaItems.length then res.map MetaItem.int
                  else metaItems
                | none => metaItems
              (⟨val.V, val.V, val.V, detail, metaTuple, none⟩, st2)
          | none =>
            let metaItems := (val.Meta.getD []).map MetaItem.int
            let (r, st2) := getFromMetaTuple fuel st1 metaItems true
            let metaTuple :=
              match r with
              | some res =>
                if res.length = metaItems.length then res.map MetaItem.int
                else metaItems
              | none => metaItems
            (⟨val.V, val.V, val.V, detail, metaTuple, none⟩, st2)
        else (⟨val.V, val.V, val.V, detail, [], none⟩, st1)

end

/-- Top-level entry point used by the theorems: Go
`r := New(expr, vt); r.rng = <stream g>; r.Roll(); r.Result()`. -/
def runRoll (fuel : Nat) (expr : String) (vt : Option (List (String × Int)))
    (g : Nat → Nat) : Result × EvalSt :=
  rollFull fuel expr vt ⟨g, 0⟩

/-! ### Concrete random streams used by witnesses and counterexamples -/

/-- The all-zero stream: every `Intn n` draw is 0. -/
def gZero : Nat → Nat := fun _ => 0

/-- A stream whose first draw is 1 and all later draws are 0: for `b`/`p`
it rolls tens = 1, units = 0 and all extra digits 0. -/
def gOneZero : Nat → Nat := fun n => if n = 0 then 1 else 0

/-! ## Claims -/

/-- C8: evaluation is deterministic given the random stream: evaluations
from pointwise-equal streams and equal variable tables produce identical
`Result`s (and identical final states). -/
theorem C8_deterministic_replay :
    ∀ (fuel : Nat) (expr : String) (vt : Option (List (String × Int)))
      (g g' : Nat → Nat), (∀ n, g n = g' n) →
      runRoll fuel expr vt g = runRoll fuel expr vt g' := by
  intro fuel expr vt g g' h
  have hg : g = g' := funext h
  rw [hg]

/-- Witness for C8 at the stream `gZero` and the expression `1+2*3`. -/
theorem C8_deterministic_replay_witness :
    runRoll 50 "1+2*3" none gZero = runRoll 50 "1+2*3" none gZero :=
  C8_deterministic_replay 50 "1+2*3" none gZero gZero (fun _ => rfl)

/-- C10: `/` is integer division truncating toward zero: `(0-7)/2`
evaluates to `-3`, the `/` step computes `Int.tdiv`, and
`(-a)/b = -(a/b)` for every `a` and non-zero `b`. -/
theorem C10_div_truncates_toward_zero :
    (∀ g : Nat → Nat, (runRoll 100 "(0-7)/2" none g).1.Value = -3 ∧
      (runRoll 100 "(0-7)/2" none g).1.Error = none) ∧
    (∀ (fuel : Nat) (st : EvalSt) (a b : Value) (rest : List Value),
      b.V ≠ 0 →
      evalStep (fuel + 1) st (b :: a :: rest) "/" =
        .ok (Value.scalar (Int.tdiv a.V b.V) :: rest, st)) ∧
    (∀ a b : Int, b ≠ 0 → Int.tdiv (-a) b = -(Int.tdiv a b)) := by
  refine ⟨fun g => ⟨rfl, rfl⟩, ?_, fun a b _ => Int.neg_tdiv a b⟩
  intro fuel st a b rest h
  have hstep : evalStep (fuel + 1) st (b :: a :: rest) "/" =
      if b.V = 0 then .error .nodeRightValInvalid
      else .ok (Value.scalar (Int.tdiv a.V b.V) :: rest, st) := rfl
  rw [hstep, if_neg h]

/-- Witness for C10: `(-7)/2` at the `/` step gives `-3`. -/
theorem C10_div_truncates_toward_zero_witness :
    evalStep 1 ⟨none, [], ⟨gZero, 0⟩, 100⟩
      [Value.scalar 2, Value.scalar (-7)] "/" =
      .ok ([Value.scalar (-3)], ⟨none, [], ⟨gZero, 0⟩, 100⟩) :=
  C10_div_truncates_toward_zero.2.1 0 ⟨none, [], ⟨gZero, 0⟩, 100⟩
    (Value.scalar (-7)) (Value.scalar 2) [] (by decide)

/-- C5: `$t=7+$t` evaluates to 14 with temp index 1 equal to 7 mirrored
into the variable table under `T1`; in general the `=` step stores the
right scalar at the left temp-reference's index, mirrors it under the
upper-cased `T<index>` key, and pushes the assigned scalar. -/
theorem C5_temp_assignment :
    (∀ g : Nat → Nat,
      (runRoll 100 "$t=7+$t" none g).1.Value = 14 ∧
      (runRoll 100 "$t=7+$t" none g).1.Error = none ∧
      ((runRoll 100 "$t=7+$t" none g).2.temp.lookup 1) = some 7 ∧
      vtGet? (runRoll 100 "$t=7+$t" none g).2.vt "T1" = some 7) ∧
    (∀ (fuel : Nat) (st : EvalSt) (a b : Value) (rest : List Value),
      a.IsTemp = true →
      evalStep (fuel + 1) st (b :: a :: rest) "=" =
        .ok (Value.scalar b.V :: rest,
          { st with temp := assocSet st.temp a.TempIndex b.V,
                    vt := some (assocSet (st.vt.getD [])
                      (tempKeyUpper a.TempIndex) b.V) })) := by
  refine ⟨fun g => ⟨rfl, rfl, rfl, rfl⟩, ?_⟩
  intro fuel st a b rest h
  have hstep : evalStep (fuel + 1) st (b :: a :: rest) "=" =
      if !a.IsTemp then .error .nodeLeftValInvalid
      else .ok (Value.scalar b.V :: rest,
        { st with temp := assocSet st.temp a.TempIndex b.V,
                  vt := some (assocSet (st.vt.getD [])
                    (tempKeyUpper a.TempIndex) b.V) }) := rfl
  rw [hstep, h]
  rfl

/-- Witness for C5: assigning 7 to `$t1` on an empty state. -/
theorem C5_temp_assignment_witness :
    evalStep 1 ⟨none, [], ⟨gZero, 0⟩, 100⟩
      [Value.scalar 7, ⟨0, none, false, 1, true, none⟩] "=" =
      .ok ([Value.scalar 7], ⟨some [("T1", 7)], [(1, 7)], ⟨gZero, 0⟩, 100⟩) :=
  C5_temp_assignment.2 0 ⟨none, [], ⟨gZero, 0⟩, 100⟩
    ⟨0, none, false, 1, true, none⟩ (Value.scalar 7) [] rfl

/-- C7: the preprocessor inserts default operands exactly as specified
(left defaults 1 for `d b p a c` and 4 for `f`/`df` at the start or after
an operator, `(`, `?` or `:`; right defaults 1 for `b p` and 3 for
`f`/`df`; `d %` becomes `d 100`; a `d` with no right operand gets the
configurable default), and `d` and `d%` evaluate exactly like `1d100`
for every state and stream under the default configuration. -/
theorem C7_preprocessor_defaults :
    preProcessTokens ["d", "6"] 100 = ["1", "d", "6"] ∧
    preProcessTokens ["b"] 100 = ["1", "b", "1"] ∧
    preProcessTokens ["p"] 100 = ["1", "p", "1"] ∧
    preProcessTokens ["f"] 100 = ["4", "f", "3"] ∧
    preProcessTokens ["df"] 100 = ["4", "df", "3"] ∧
    preProcessTokens ["a", "5"] 100 = ["1", "a", "5"] ∧
    preProcessTokens ["c", "5"] 100 = ["1", "c", "5"] ∧
    preProcessTokens ["2", "+", "d", "6"] 100 = ["2", "+", "1", "d", "6"] ∧
    preProcessTokens ["(", "d", "6", ")"] 100 = ["(", "1", "d", "6", ")"] ∧
    preProcessTokens ["1", "?", "d", "6", ":", "d", "8"] 100 =
      ["1", "?", "1", "d", "6", ":", "1", "d", "8"] ∧
    preProcessTokens ["d", "%"] 100 = ["1", "d", "100"] ∧
    preProcessTokens ["d"] 100 = ["1", "d", "100"] ∧
    (∀ dflt : Int, preProcessTokens ["3", "d"] dflt = ["3", "d", itoa dflt]) ∧
    tokenize "d" = some ["d"] ∧
    tokenize "d%" = some ["d", "%"] ∧
    tokenize "1d100" = some ["1", "d", "100"] ∧
    (∀ (vt : Option (List (String × Int)))
      (temp : List (Int × Int)) (rng : Rng),
      evalTokens 100 ⟨vt, temp, rng, 100⟩ ["d"] =
        evalTokens 100 ⟨vt, temp, rng, 100⟩ ["1", "d", "100"] ∧
      evalTokens 100 ⟨vt, temp, rng, 100⟩ ["d", "%"] =
        evalTokens 100 ⟨vt, temp, rng, 100⟩ ["1", "d", "100"]) := by
  refine ⟨rfl, rfl, rfl, rfl, rfl, rfl, rfl, rfl, rfl, rfl, rfl, rfl,
    fun _ => rfl, rfl, rfl, rfl, fun vt temp rng => ⟨?_, rfl⟩⟩
  show (match toRPN (preProcessTokens (stripOuter 2 ["d"])
          (EvalSt.defaultFaces ⟨vt, temp, rng, 100⟩)) with
        | none => Except.error ErrorType.unknownGenerate
        | some rpn => evalRPN 99 (⟨vt, temp, rng, 100⟩ : EvalSt) rpn) =
      evalTokens 100 ⟨vt, temp, rng, 100⟩ ["1", "d", "100"]
  have hpp : preProcessTokens (stripOuter 2 ["d"])
      (EvalSt.defaultFaces ⟨vt, temp, rng, 100⟩) = ["1", "d", "100"] := by
    show preProcessTokens (stripOuter 2 ["d"]) 100 = ["1", "d", "100"]
    rfl
  rw [hpp]
  rfl

/-- C1 counterexample: the paren-folding step of `evalTokens` eagerly
evaluates any parenthesized group not opening directly after `?`/`:`, so
in `0?1+(1/0):2` the division by zero inside the *unselected* true branch
surfaces even though the condition is 0 — the claimed guarantee fails. -/
theorem C1_counterexample_eager_paren_fold :
    (runRoll 100 "0?1+(1/0):2" none gZero).1.Error =
      some ErrorType.nodeRightValInvalid := rfl

/-- C1 (amended): for ternary expressions whose branches are bare
segments or parenthesized groups opening directly after `?`/`:`, only
the selected branch's errors and temp writes are observable; in
particular the three specification examples hold for every stream. -/
theorem C1_ternary_short_circuit_examples :
    ∀ g : Nat → Nat,
      (runRoll 100 "1?1:(1/0)" none g).1.Value = 1 ∧
      (runRoll 100 "1?1:(1/0)" none g).1.Error = none ∧
      (runRoll 100 "(1?($t1=5):($t1=6))+$t1" none g).1.Value = 10 ∧
      (runRoll 100 "(1?($t1=5):($t1=6))+$t1" none g).1.Error = none ∧
      ((runRoll 100 "(1?($t1=5):($t1=6))+$t1" none g).2.temp.lookup 1) = some 5 ∧
      (runRoll 100 "(0?($t1=5):($t1=6))+$t1" none g).1.Value = 12 ∧
      (runRoll 100 "(0?($t1=5):($t1=6))+$t1" none g).1.Error = none ∧
      ((runRoll 100 "(0?($t1=5):($t1=6))+$t1" none g).2.temp.lookup 1) = some 6 :=
  fun _ => ⟨rfl, rfl, rfl, rfl, rfl, rfl, rfl, rfl⟩

/-- The running minimum of `b` stays within any interval containing its
seed and all list elements. -/
theorem foldMinGo_bounds (lo hi : Int) :
    ∀ (l : List Int) (m : Int), lo ≤ m → m ≤ hi →
      (∀ x ∈ l, lo ≤ x ∧ x ≤ hi) →
      lo ≤ foldMinGo m l ∧ foldMinGo m l ≤ hi := by
  intro l
  induction l with
  | nil => intro m h1 h2 _; exact ⟨h1, h2⟩
  | cons v rest ih =>
    intro m h1 h2 hmem
    have hv := hmem v (List.mem_cons_self v rest)
    have hrest : ∀ x ∈ rest, lo ≤ x ∧ x ≤ hi :=
      fun x hx => hmem x (List.mem_cons_of_mem v hx)
    show lo ≤ foldMinGo (if v < m then v else m) rest ∧
      foldMinGo (if v < m then v else m) rest ≤ hi
    by_cases hcmp : v < m
    · rw [if_pos hcmp]; exact ih v hv.1 hv.2 hrest
    · rw [if_neg hcmp]; exact ih m h1 h2 hrest

/-- The running maximum of `p` stays within any interval containing its
seed and all list elements. -/
theorem foldMaxGo_bounds (lo hi : Int) :
    ∀ (l : List Int) (m : Int), lo ≤ m → m ≤ hi →
      (∀ x ∈ l, lo ≤ x ∧ x ≤ hi) →
      lo ≤ foldMaxGo m l ∧ foldMaxGo m l ≤ hi := by
  intro l
  induction l with
  | nil => intro m h1 h2 _; exact ⟨h1, h2⟩
  | cons v rest ih =>
    intro m h1 h2 hmem
    have hv := hmem v (List.mem_cons_self v rest)
    have hrest : ∀ x ∈ rest, lo ≤ x ∧ x ≤ hi :=
      fun x hx => hmem x (List.mem_cons_of_mem v hx)
    show lo ≤ foldMaxGo (if v > m then v else m) rest ∧
      foldMaxGo (if v > m then v else m) rest ≤ hi
    by_cases hcmp : v > m
    · rw [if_pos hcmp]; exact ih v hv.1 hv.2 hrest
    · rw [if_neg hcmp]; exact ih m h1 h2 hrest

/-- Symbolic-stream normal form of the `1b3` result value. -/
theorem roll1b3_value (g : Nat → Nat) :
    (runRoll 100 "1b3" none g).1.Value =
      ((if (((g 0 % 10 : Nat) : Int) = 0 ∧ ((g 1 % 10 : Nat) : Int) = 0) then
          ((100 : Int), ((g 0 % 10 : Nat) : Int))
        else
          (foldMinGo (((g 2 % 10 : Nat) : Int))
              [((g 3 % 10 : Nat) : Int), ((g 4 % 10 : Nat) : Int)] * 10 +
            ((g 1 % 10 : Nat) : Int),
           foldMinGo (((g 2 % 10 : Nat) : Int))
              [((g 3 % 10 : Nat) : Int), ((g 4 % 10 : Nat) : Int)])).1 : Int) := rfl

/-- Symbolic-stream normal form of the `1p3` result value. -/
theorem roll1p3_value (g : Nat → Nat) :
    (runRoll 100 "1p3" none g).1.Value =
      ((if (((g 0 % 10 : Nat) : Int) = 0 ∧ ((g 1 % 10 : Nat) : Int) = 0) then
          ((100 : Int), ((g 0 % 10 : Nat) : Int))
        else
          (foldMaxGo (((g 2 % 10 : Nat) : Int))
              [((g 3 % 10 : Nat) : Int), ((g 4 % 10 : Nat) : Int)] * 10 +
            ((g 1 % 10 : Nat) : Int),
           foldMaxGo (((g 2 % 10 : Nat) : Int))
              [((g 3 % 10 : Nat) : Int), ((g 4 % 10 : Nat) : Int)])).1 : Int) := rfl

/-- Value of `1b3` with the pair projection pushed through the branch. -/
theorem roll1b3_value_ite (g : Nat → Nat) :
    (runRoll 100 "1b3" none g).1.Value =
      (if (((g 0 % 10 : Nat) : Int) = 0 ∧ ((g 1 % 10 : Nat) : Int) = 0) then
        (100 : Int)
      else
        foldMinGo (((g 2 % 10 : Nat) : Int))
            [((g 3 % 10 : Nat) : Int), ((g 4 % 10 : Nat) : Int)] * 10 +
          ((g 1 % 10 : Nat) : Int)) := by
  rw [roll1b3_value]
  split_ifs <;> rfl

/-- Value of `1p3` with the pair projection pushed through the branch. -/
theorem roll1p3_value_ite (g : Nat → Nat) :
    (runRoll 100 "1p3" none g).1.Value =
      (if (((g 0 % 10 : Nat) : Int) = 0 ∧ ((g 1 % 10 : Nat) : Int) = 0) then
        (100 : Int)
      else
        foldMaxGo (((g 2 % 10 : Nat) : Int))
            [((g 3 % 10 : Nat) : Int), ((g 4 % 10 : Nat) : Int)] * 10 +
          ((g 1 % 10 : Nat) : Int)) := by
  rw [roll1p3_value]
  split_ifs <;> rfl

/-- C3 counterexample: with a stream rolling tens 1, units 0 and extra
digits 0, both `1b3` and `1p3` succeed with value 0, outside the claimed
range `[1,100]`. -/
theorem C3_counterexample_value_zero :
    (runRoll 100 "1b3" none gOneZero).1.Error = none ∧
    (runRoll 100 "1b3" none gOneZero).1.Value = 0 ∧
    (runRoll 100 "1p3" none gOneZero).1.Error = none ∧
    (runRoll 100 "1p3" none gOneZero).1.Value = 0 :=
  ⟨rfl, rfl, rfl, rfl⟩

/-- C3 (amended): for every random stream, `1b3` and `1p3` succeed with
a value in `[0,100]`, and a stream whose initially rolled tens digit and
units digit are both 0 yields value 100. -/
theorem C3_bp_value_range :
    ∀ g : Nat → Nat,
      (runRoll 100 "1b3" none g).1.Error = none ∧
      0 ≤ (runRoll 100 "1b3" none g).1.Value ∧
      (runRoll 100 "1b3" none g).1.Value ≤ 100 ∧
      (g 0 % 10 = 0 → g 1 % 10 = 0 →
        (runRoll 100 "1b3" none g).1.Value = 100) ∧
      (runRoll 100 "1p3" none g).1.Error = none ∧
      0 ≤ (runRoll 100 "1p3" none g).1.Value ∧
      (runRoll 100 "1p3" none g).1.Value ≤ 100 ∧
      (g 0 % 10 = 0 → g 1 % 10 = 0 →
        (runRoll 100 "1p3" none g).1.Value = 100) := by
  intro g
  have hd2 : (g 2 % 10) < 10 := Nat.mod_lt _ (by norm_num)
  have hd3 : (g 3 % 10) < 10 := Nat.mod_lt _ (by norm_num)
  have hd4 : (g 4 % 10) < 10 := Nat.mod_lt _ (by norm_num)
  have hd1 : (g 1 % 10) < 10 := Nat.mod_lt _ (by norm_num)
  have hmemB : ∀ x ∈ [((g 3 % 10 : Nat) : Int), ((g 4 % 10 : Nat) : Int)],
      (0 : Int) ≤ x ∧ x ≤ 9 := by
    intro x hx
    simp only [List.mem_cons, List.mem_singleton, List.not_mem_nil, or_false] at hx
    rcases hx with h | h <;> subst h <;> constructor <;> omega
  obtain ⟨hminB1, hminB2⟩ := foldMinGo_bounds 0 9
    [((g 3 % 10 : Nat) : Int), ((g 4 % 10 : Nat) : Int)] (((g 2 % 10 : Nat) : Int))
    (by omega) (by omega) hmemB
  obtain ⟨hmaxB1, hmaxB2⟩ := foldMaxGo_bounds 0 9
    [((g 3 % 10 : Nat) : Int), ((g 4 % 10 : Nat) : Int)] (((g 2 % 10 : Nat) : Int))
    (by omega) (by omega) hmemB
  refine ⟨rfl, ?_, ?_, ?_, rfl, ?_, ?_, ?_⟩
  · rw [roll1b3_value_ite]; split_ifs with h
    · norm_num
    · omega
  · rw [roll1b3_value_ite]; split_ifs with h
    · norm_num
    · omega
  · intro h0 h1
    rw [roll1b3_value_ite, if_pos (by rw [h0, h1]; exact ⟨rfl, rfl⟩)]
  · rw [roll1p3_value_ite]; split_ifs with h
    · norm_num
    · omega
  · rw [roll1p3_value_ite]; split_ifs with h
    · norm_num
    · omega
  · intro h0 h1
    rw [roll1p3_value_ite, if_pos (by rw [h0, h1]; exact ⟨rfl, rfl⟩)]

/-- Witness for C3 at the all-zero stream: tens = units = 0, so both
`1b3` and `1p3` give 100. -/
theorem C3_bp_value_range_witness :
    (runRoll 100 "1b3" none gZero).1.Value = 100 ∧
    (runRoll 100 "1p3" none gZero).1.Value = 100 :=
  ⟨(C3_bp_value_range gZero).2.2.2.1 rfl rfl,
   (C3_bp_value_range gZero).2.2.2.2.2.2.2 rfl rfl⟩

/-- The clamping loop of `min`/`max` preserves the operand list's length. -/
theorem minmaxLoop_length (b : Bool) (n : Int) :
    ∀ l : List Int, (minmaxLoop b n l).1.length = l.length := by
  intro l
  induction l with
  | nil => rfl
  | cons v rest ih =>
    show ((if b then (if v > n then n else v) else (if v < n then n else v)) ::
      (minmaxLoop b n rest).1).length = rest.length + 1
    simp only [List.length_cons, ih]

/-- One-layer form of the `min`/`max` step (the match on the loop result
is pair projection by structure eta). -/
theorem evalStep_minmax (isMax : Bool) (fuel : Nat) (st : EvalSt)
    (param left : Value) (rest : List Value) :
    evalStep (fuel + 1) st (param :: left :: rest)
        (if isMax then "max" else "min") =
      if param.V ≤ 0 then .error .nodeRightValInvalid
      else
        .ok (⟨(minmaxLoop isMax param.V
                (if !left.MetaEnable then [left.V] else left.Meta.getD [])).2,
              some (minmaxLoop isMax param.V
                (if !left.MetaEnable then [left.V] else left.Meta.getD [])).1,
              true, 0, false, none⟩ :: rest, st) := by
  cases isMax <;> rfl

/-- C9 counterexample: a string-meta operand (one sub-expression `1d1`)
fed to `min` produces an empty result meta, while resolving that operand
yields a one-element list — the result meta's length does not equal the
resolved length of the left operand. -/
theorem C9_counterexample_string_meta :
    evalStep 1 ⟨none, [], ⟨gZero, 0⟩, 100⟩
        [Value.scalar 3, ⟨0, none, true, 0, false, some ["1d1"]⟩] "min" =
      .ok ([⟨0, some [], true, 0, false, none⟩], ⟨none, [], ⟨gZero, 0⟩, 100⟩) ∧
    (resolveMetaValues 50 ⟨none, [], ⟨gZero, 0⟩, 100⟩
        ⟨0, none, true, 0, false, some ["1d1"]⟩).1 = some [1] ∧
    ([] : List Int).length ≠ [(1 : Int)].length :=
  ⟨rfl, rfl, by decide⟩

/-- C9 (amended): `min` and `max` always produce a result with meta
enabled for every operand and `n > 0` — a bare scalar yields a
one-element meta list (`3min5` gives value 5 and meta `[5]`), and the
result meta's length equals the length of the left operand's *integer*
meta list (1 for a scalar; for a string-meta operand the integer meta is
absent and the result meta is empty). -/
theorem C9_minmax_meta_always_enabled :
    (∀ g : Nat → Nat,
      (runRoll 100 "3min5" none g).1.Value = 5 ∧
      (runRoll 100 "3min5" none g).1.MetaTuple = [MetaItem.int 5] ∧
      (runRoll 100 "3min5" none g).1.Error = none) ∧
    (∀ (isMax : Bool) (fuel : Nat) (st : EvalSt) (param left : Value)
      (rest : List Value), 0 < param.V →
      evalStep (fuel + 1) st (param :: left :: rest)
          (if isMax then "max" else "min") =
        .ok (⟨(minmaxLoop isMax param.V
                (if !left.MetaEnable then [left.V] else left.Meta.getD [])).2,
              some (minmaxLoop isMax param.V
                (if !left.MetaEnable then [left.V] else left.Meta.getD [])).1,
              true, 0, false, none⟩ :: rest, st) ∧
        (minmaxLoop isMax param.V
            (if !left.MetaEnable then [left.V] else left.Meta.getD [])).1.length =
          (if left.MetaEnable then (left.Meta.getD []).length else 1)) := by
  refine ⟨fun g => ⟨rfl, rfl, rfl⟩, ?_⟩
  intro isMax fuel st param left rest h
  constructor
  · rw [evalStep_minmax, if_neg (not_le.mpr h)]
  · rw [minmaxLoop_length]
    cases hme : left.MetaEnable <;> simp

/-- Go's summation loops compute the list sum. -/
theorem sumGo_foldl (a : Int) : ∀ l : List Int, l.foldl (· + ·) a = a + l.sum := by
  intro l
  induction l generalizing a with
  | nil => simp
  | cons v rest ih => simp [sumGo, ih (a + v)]; ring

/-- `sumGo` is the list sum. -/
theorem sumGo_eq_sum (l : List Int) : sumGo l = l.sum := by
  simp [sumGo, sumGo_foldl]

/-- The descending sort is a permutation of its input. -/
theorem sortDesc_perm (l : List Int) : (sortDesc l).Perm l :=
  List.mergeSort_perm l _

/-- The ascending sort is a permutation of its input. -/
theorem sortAsc_perm (l : List Int) : (sortAsc l).Perm l :=
  List.mergeSort_perm l _

/-- The descending sort is sorted with respect to `≥`. -/
theorem sortDesc_sorted (l : List Int) : (sortDesc l).Sorted (· ≥ ·) := by
  have h : ((l.mergeSort fun a b : Int => decide (b ≤ a)).Pairwise
      fun a b => decide (b ≤ a) = true) :=
    List.sorted_mergeSort
      (fun _ _ _ h1 h2 => by
        simp only [decide_eq_true_eq] at *
        omega)
      (fun a b => by simpa using le_total b a) l
  exact List.Pairwise.imp (fun h => by simpa using h) h

/-- The ascending sort is sorted with respect to `≤`. -/
theorem sortAsc_sorted (l : List Int) : (sortAsc l).Sorted (· ≤ ·) := by
  have h : ((l.mergeSort fun a b : Int => decide (a ≤ b)).Pairwise
      fun a b => decide (a ≤ b) = true) :=
    List.sorted_mergeSort
      (fun _ _ _ h1 h2 => by
        simp only [decide_eq_true_eq] at *
        omega)
      (fun a b => by simpa using le_total a b) l
  exact List.Pairwise.imp (fun h => by simpa using h) h

/-- `length` of both sorts. -/
theorem sortDesc_length (l : List Int) : (sortDesc l).length = l.length :=
  List.length_mergeSort l

/-- The clamped take bound of `kh`/`kl` equals a plain `take n.toNat`. -/
theorem take_clamped (arr : List Int) (n : Int) :
    arr.take (if n > (arr.length : Int) then ((arr.length : Int)) else n).toNat =
      arr.take n.toNat := by
  by_cases h : n > (arr.length : Int)
  · rw [if_pos h]
    have h1 : ((arr.length : Int)).toNat = arr.length := by omega
    have h2 : arr.length ≤ n.toNat := by omega
    rw [h1, List.take_length, List.take_of_length_le h2]
  · rw [if_neg h]

/-- `selectFromMeta` on `kh`: sort descending, keep the first `n`
(everything when `n` exceeds the length), sum the kept. -/
theorem selectFromMeta_kh (l : List Int) (n : Int) (hl : l ≠ []) :
    selectFromMeta l n "kh" =
      ((sortDesc l).take n.toNat, ((sortDesc l).take n.toNat).sum) := by
  have h0 : selectFromMeta l n "kh" =
      if l = [] then ([], 0)
      else
        ((sortDesc l).take
            (if n > ((sortDesc l).length : Int) then (((sortDesc l).length : Int))
             else n).toNat,
          sumGo ((sortDesc l).take
            (if n > ((sortDesc l).length : Int) then (((sortDesc l).length : Int))
             else n).toNat)) := rfl
  rw [h0, if_neg hl, take_clamped, sumGo_eq_sum]

/-- `selectFromMeta` on `kl`: sort ascending, keep the first `n`. -/
theorem selectFromMeta_kl (l : List Int) (n : Int) (hl : l ≠ []) :
    selectFromMeta l n "kl" =
      ((sortAsc l).take n.toNat, ((sortAsc l).take n.toNat).sum) := by
  have h0 : selectFromMeta l n "kl" =
      if l = [] then ([], 0)
      else
        ((sortAsc l).take
            (if n > ((sortAsc l).length : Int) then (((sortAsc l).length : Int))
             else n).toNat,
          sumGo ((sortAsc l).take
            (if n > ((sortAsc l).length : Int) then (((sortAsc l).length : Int))
             else n).toNat)) := rfl
  rw [h0, if_neg hl]
  have := take_clamped (sortAsc l) n
  rw [this, sumGo_eq_sum]

/-- `selectFromMeta` on `dh`: sort descending, drop the first `n`
(empty when `n` is at least the length), sum the rest. -/
theorem selectFromMeta_dh (l : List Int) (n : Int) (hl : l ≠ []) (hn : 0 < n) :
    selectFromMeta l n "dh" =
      ((sortDesc l).drop n.toNat, ((sortDesc l).drop n.toNat).sum) := by
  have h0 : selectFromMeta l n "dh" =
      if l = [] then ([], 0)
      else
        if n ≥ ((sortDesc l).length : Int) then ([], 0)
        else ((sortDesc l).drop n.toNat, sumGo ((sortDesc l).drop n.toNat)) := rfl
  rw [h0, if_neg hl]
  by_cases h : n ≥ ((sortDesc l).length : Int)
  · rw [if_pos h]
    have h2 : (sortDesc l).length ≤ n.toNat := by omega
    rw [List.drop_eq_nil_of_le h2]
    rfl
  · rw [if_neg h, sumGo_eq_sum]

/-- `selectFromMeta` on `dl`: sort ascending, drop the first `n`. -/
theorem selectFromMeta_dl (l : List Int) (n : Int) (hl : l ≠ []) (hn : 0 < n) :
    selectFromMeta l n "dl" =
      ((sortAsc l).drop n.toNat, ((sortAsc l).drop n.toNat).sum) := by
  have h0 : selectFromMeta l n "dl" =
      if l = [] then ([], 0)
      else
        if n ≥ ((sortAsc l).length : Int) then ([], 0)
        else ((sortAsc l).drop n.toNat, sumGo ((sortAsc l).drop n.toNat)) := rfl
  rw [h0, if_neg hl]
  by_cases h : n ≥ ((sortAsc l).length : Int)
  · rw [if_pos h]
    have h2 : (sortAsc l).length ≤ n.toNat := by omega
    rw [List.drop_eq_nil_of_le h2]
    rfl
  · rw [if_neg h, sumGo_eq_sum]

/-- The tail of the `kh`/`kl`/`dh`/`dl` step after the parameter check
(verbatim body of the Go case). -/
def khFamilyTail (mode : String) (fuel : Nat) (st : EvalSt) (left : Value)
    (rest : List Value) (n : Int) : Except ErrorType (List Value × EvalSt) :=
  match resolveMetaValues fuel st left with
  | (none, st') => let _ := st'; .error .nodeLeftValInvalid
  | (some rollsRaw, st') =>
    if rollsRaw.length = 0 then .error .nodeLeftValInvalid
    else
      let (sel, sum) := selectFromMeta rollsRaw n mode
      .ok (⟨sum, some sel, decide (sel.length > 0), 0, false, none⟩ :: rest, st')

/-- Sorting a singleton gives it back. -/
theorem sortDesc_singleton (a : Int) : sortDesc [a] = [a] :=
  List.perm_singleton.mp (sortDesc_perm [a])

/-- `selectFromMeta` on the singleton `[5]` with `n = 3` keeps the 5. -/
theorem selectFromMeta_kh_five : selectFromMeta [(5 : Int)] 3 "kh" = ([5], 5) := by
  rw [selectFromMeta_kh [(5 : Int)] 3 (by decide), sortDesc_singleton]
  rfl

/-- Dispatch of the four keep/drop tokens in `evalStep`. -/
theorem evalStep_khFamily (mode : String)
    (hmode : mode = "kh" ∨ mode = "kl" ∨ mode = "dh" ∨ mode = "dl")
    (fuel : Nat) (st : EvalSt) (param left : Value) (rest : List Value) :
    evalStep (fuel + 1) st (param :: left :: rest) mode =
      if param.V ≤ 0 then .error .nodeRightValInvalid
      else khFamilyTail mode fuel st left rest param.V := by
  rcases hmode with h | h | h | h <;> subst h <;> rfl

/-- An integer meta list resolves to itself. -/
theorem resolveMetaValues_intMeta (fuel : Nat) (st : EvalSt) (v : Value)
    (l : List Int) (hme : v.MetaEnable = true) (hm : v.Meta = some l) :
    resolveMetaValues (fuel + 1) st v = (some l, st) := by
  have h0 : resolveMetaValues (fuel + 1) st v =
      if !v.MetaEnable then (some [v.V], st)
      else
        match v.Meta with
        | some l => (some l, st)
        | none =>
          match v.MetaStr with
          | some ls =>
            if ls ≠ [] then getFromMetaTuple fuel st (ls.map MetaItem.str) true
            else (none, st)
          | none => (none, st) := rfl
  rw [h0, hme, hm]
  rfl

/-- A scalar (meta-disabled) value resolves to the singleton of its value. -/
theorem resolveMetaValues_scalar (fuel : Nat) (st : EvalSt) (v : Value)
    (hme : v.MetaEnable = false) :
    resolveMetaValues (fuel + 1) st v = (some [v.V], st) := by
  have h0 : resolveMetaValues (fuel + 1) st v =
      if !v.MetaEnable then (some [v.V], st)
      else
        match v.Meta with
        | some l => (some l, st)
        | none =>
          match v.MetaStr with
          | some ls =>
            if ls ≠ [] then getFromMetaTuple fuel st (ls.map MetaItem.str) true
            else (none, st)
          | none => (none, st) := rfl
  rw [h0, hme]
  rfl

/-- C6: `kh` sorts descending and keeps the first `n` (all elements when
`n` exceeds the length), `kl` sorts ascending and keeps the first `n`,
`dh`/`dl` drop the first `n` of the same orders (empty when `n ≥` length);
the value is the sum of the kept list and the meta is the kept list.  A
bare scalar left operand acts as a one-element list (`5kh3` gives 5 with
meta `[5]`), `n ≤ 0` is an invalid-right error, and an empty resolved
operand an invalid-left error. -/
theorem C6_keep_drop_semantics :
    (∀ (l : List Int) (n : Int), l ≠ [] → 0 < n →
      ∃ l' : List Int, l'.Perm l ∧ l'.Sorted (· ≥ ·) ∧
        selectFromMeta l n "kh" = (l'.take n.toNat, (l'.take n.toNat).sum)) ∧
    (∀ (l : List Int) (n : Int), l ≠ [] → 0 < n →
      ∃ l' : List Int, l'.Perm l ∧ l'.Sorted (· ≤ ·) ∧
        selectFromMeta l n "kl" = (l'.take n.toNat, (l'.take n.toNat).sum)) ∧
    (∀ (l : List Int) (n : Int), l ≠ [] → 0 < n →
      ∃ l' : List Int, l'.Perm l ∧ l'.Sorted (· ≥ ·) ∧
        selectFromMeta l n "dh" = (l'.drop n.toNat, (l'.drop n.toNat).sum)) ∧
    (∀ (l : List Int) (n : Int), l ≠ [] → 0 < n →
      ∃ l' : List Int, l'.Perm l ∧ l'.Sorted (· ≤ ·) ∧
        selectFromMeta l n "dl" = (l'.drop n.toNat, (l'.drop n.toNat).sum)) ∧
    (∀ (fuel : Nat) (st : EvalSt) (rest : List Value),
      evalStep (fuel + 2) st (Value.scalar 3 :: Value.scalar 5 :: rest) "kh" =
        .ok (⟨5, some [5], true, 0, false, none⟩ :: rest, st)) ∧
    (∀ mode, mode = "kh" ∨ mode = "kl" ∨ mode = "dh" ∨ mode = "dl" →
      ∀ (fuel : Nat) (st : EvalSt) (param left : Value) (rest : List Value),
        param.V ≤ 0 →
        evalStep (fuel + 1) st (param :: left :: rest) mode =
          .error .nodeRightValInvalid) ∧
    (∀ mode, mode = "kh" ∨ mode = "kl" ∨ mode = "dh" ∨ mode = "dl" →
      ∀ (fuel : Nat) (st : EvalSt) (param left : Value) (rest : List Value),
        0 < param.V → left.MetaEnable = true → left.Meta = some [] →
        evalStep (fuel + 2) st (param :: left :: rest) mode =
          .error .nodeLeftValInvalid) := by
  refine ⟨?_, ?_, ?_, ?_, ?_, ?_, ?_⟩
  · intro l n hl hn
    exact ⟨sortDesc l, sortDesc_perm l, sortDesc_sorted l, selectFromMeta_kh l n hl⟩
  · intro l n hl hn
    exact ⟨sortAsc l, sortAsc_perm l, sortAsc_sorted l, selectFromMeta_kl l n hl⟩
  · intro l n hl hn
    exact ⟨sortDesc l, sortDesc_perm l, sortDesc_sorted l, selectFromMeta_dh l n hl hn⟩
  · intro l n hl hn
    exact ⟨sortAsc l, sortAsc_perm l, sortAsc_sorted l, selectFromMeta_dl l n hl hn⟩
  · intro fuel st rest
    rw [evalStep_khFamily "kh" (Or.inl rfl), if_neg (by decide)]
    show khFamilyTail "kh" (fuel + 1) st (Value.scalar 5) rest 3 = _
    unfold khFamilyTail
    rw [resolveMetaValues_scalar fuel st (Value.scalar 5) rfl]
    show (if (([(5 : Int)]).length = 0) then
            (Except.error ErrorType.nodeLeftValInvalid :
              Except ErrorType (List Value × EvalSt))
          else
            match selectFromMeta [(5 : Int)] 3 "kh" with
            | (sel, sum) =>
              .ok (⟨sum, some sel, decide (sel.length > 0), 0, false, none⟩ :: rest, st)) = _
    rw [selectFromMeta_kh_five]
    rfl
  · intro mode hmode fuel st param left rest h
    rw [evalStep_khFamily mode hmode, if_pos h]
  · intro mode hmode fuel st param left rest h hme hm
    rw [evalStep_khFamily mode hmode, if_neg (not_le.mpr h)]
    show khFamilyTail mode (fuel + 1) st left rest param.V = _
    unfold khFamilyTail
    rw [resolveMetaValues_intMeta fuel st left [] hme hm]
    rfl

/-- Witness for C6 on the list `[4,2,6]` with `n = 2`. -/
theorem C6_keep_drop_semantics_witness :
    ∃ l' : List Int, l'.Perm [(4 : Int), 2, 6] ∧ l'.Sorted (· ≥ ·) ∧
      selectFromMeta [(4 : Int), 2, 6] 2 "kh" =
        (l'.take (2 : Int).toNat, (l'.take (2 : Int).toNat).sum) :=
  C6_keep_drop_semantics.1 [(4 : Int), 2, 6] 2 (by decide) (by decide)

/-- Witness for C9: `max` on a scalar operand 3 with n = 5. -/
theorem C9_minmax_meta_always_enabled_witness :
    evalStep 1 ⟨none, [], ⟨gZero, 0⟩, 100⟩
        [Value.scalar 5, Value.scalar 3] "max" =
      .ok ([⟨3, some [3], true, 0, false, none⟩], ⟨none, [], ⟨gZero, 0⟩, 100⟩) := by
  have h := (C9_minmax_meta_always_enabled.2 true 0 ⟨none, [], ⟨gZero, 0⟩, 100⟩
    (Value.scalar 5) (Value.scalar 3) [] (by decide)).1
  exact h

/-- One `a`-chain round adds exactly `cur` rolls, and spawns at most
`cur` dice for the next round on top of the carried count. -/
theorem chainAInner_spec (m th : Int) :
    ∀ (cur : Nat) (rng : Rng) (metaRev : List Int) (nc : Nat) (total : Int),
      (chainAInner m th cur rng metaRev nc total).2.1.length = metaRev.length + cur ∧
      (chainAInner m th cur rng metaRev nc total).2.2.1 ≤ nc + cur := by
  intro cur
  induction cur with
  | zero => intro rng metaRev nc total; exact ⟨rfl, Nat.le_refl nc⟩
  | succ cur ih =>
    intro rng metaRev nc total
    have hstep : ∀ nc' : Nat, ∀ total' : Int,
        chainAInner m th (cur + 1) rng metaRev nc' total' =
          chainAInner m th cur (intn rng m).2 (((intn rng m).1 + 1) :: metaRev)
            (if (intn rng m).1 + 1 ≥ th then nc' + 1 else nc')
            (if (intn rng m).1 + 1 ≥ th then total' + 1 else total') :=
      fun _ _ => rfl
    rw [hstep nc total]
    obtain ⟨h1, h2⟩ := ih (intn rng m).2 (((intn rng m).1 + 1) :: metaRev)
      (if (intn rng m).1 + 1 ≥ th then nc + 1 else nc)
      (if (intn rng m).1 + 1 ≥ th then total + 1 else total)
    refine ⟨by rw [h1]; simp; omega, le_trans h2 ?_⟩
    split_ifs <;> omega

/-- One `c`-chain round adds exactly `cur` rolls, and spawns at most
`cur` dice for the next round on top of the carried count. -/
theorem chainCInner_spec (m th : Int) :
    ∀ (cur : Nat) (rng : Rng) (metaRev : List Int) (nc : Nat) (maxv : Int),
      (chainCInner m th cur rng metaRev nc maxv).2.1.length = metaRev.length + cur ∧
      (chainCInner m th cur rng metaRev nc maxv).2.2.1 ≤ nc + cur := by
  intro cur
  induction cur with
  | zero => intro rng metaRev nc maxv; exact ⟨rfl, Nat.le_refl nc⟩
  | succ cur ih =>
    intro rng metaRev nc maxv
    have hstep : ∀ nc' : Nat, ∀ maxv' : Int,
        chainCInner m th (cur + 1) rng metaRev nc' maxv' =
          chainCInner m th cur (intn rng m).2 (((intn rng m).1 + 1) :: metaRev)
            (if (intn rng m).1 + 1 ≥ th then nc' + 1 else nc')
            (if (intn rng m).1 + 1 > maxv' then (intn rng m).1 + 1 else maxv') :=
      fun _ _ => rfl
    rw [hstep nc maxv]
    obtain ⟨h1, h2⟩ := ih (intn rng m).2 (((intn rng m).1 + 1) :: metaRev)
      (if (intn rng m).1 + 1 ≥ th then nc + 1 else nc)
      (if (intn rng m).1 + 1 > maxv then (intn rng m).1 + 1 else maxv)
    refine ⟨by rw [h1]; simp; omega, le_trans h2 ?_⟩
    split_ifs <;> omega

/-- The `a` round loop terminates with fuel exceeding `10001` minus the
rolls already accumulated, and the final roll list overshoots the 10000
cap by at most the current round size. -/
theorem chainALoop_spec (m th : Int) :
    ∀ (fuel nc : Nat) (rng : Rng) (metaRev : List Int) (total : Int),
      metaRev.length ≤ 10000 → 10001 < fuel + metaRev.length →
      ∃ rng' metaRev' total',
        chainALoop m th fuel nc rng metaRev total = some (rng', metaRev', total') ∧
        metaRev'.length ≤ 10000 + nc := by
  intro fuel
  induction fuel with
  | zero => intro nc rng metaRev total h1 h2; exfalso; omega
  | succ fuel ih =>
    intro nc rng metaRev total h1 h2
    by_cases hnc : nc = 0
    · subst hnc
      exact ⟨rng, metaRev, total, rfl, by omega⟩
    · have hstep : chainALoop m th (fuel + 1) nc rng metaRev total =
          if nc = 0 then some (rng, metaRev, total)
          else
            match chainAInner m th nc rng metaRev 0 total with
            | (rng', metaRev', nc', total') =>
              if metaRev'.length > 10000 then some (rng', metaRev', total')
              else chainALoop m th fuel nc' rng' metaRev' total' := rfl
      rw [hstep, if_neg hnc]
      obtain ⟨hL, hN⟩ := chainAInner_spec m th nc rng metaRev 0 total
      rcases hAI : chainAInner m th nc rng metaRev 0 total with ⟨rng', metaRev', nc', total'⟩
      rw [hAI] at hL hN
      dsimp only at hL hN ⊢
      by_cases hlen : metaRev'.length > 10000
      · exact ⟨rng', metaRev', total', by rw [if_pos hlen], by omega⟩
      · rw [if_neg hlen]
        obtain ⟨r2, m2, t2, hrec, hb⟩ := ih nc' rng' metaRev' total'
          (by omega) (by omega)
        exact ⟨r2, m2, t2, hrec, by omega⟩

/-- The `c` round loop terminates with fuel exceeding `10001` minus the
rolls already accumulated, and the final roll list overshoots the 10000
cap by at most the current round size. -/
theorem chainCLoop_spec (m th : Int) :
    ∀ (fuel nc : Nat) (rng : Rng) (metaRev : List Int) (total : Int),
      metaRev.length ≤ 10000 → 10001 < fuel + metaRev.length →
      ∃ rng' metaRev' total',
        chainCLoop m th fuel nc rng metaRev total = some (rng', metaRev', total') ∧
        metaRev'.length ≤ 10000 + nc := by
  intro fuel
  induction fuel with
  | zero => intro nc rng metaRev total h1 h2; exfalso; omega
  | succ fuel ih =>
    intro nc rng metaRev total h1 h2
    by_cases hnc : nc = 0
    · subst hnc
      exact ⟨rng, metaRev, total, rfl, by omega⟩
    · have hstep : chainCLoop m th (fuel + 1) nc rng metaRev total =
          if nc = 0 then some (rng, metaRev, total)
          else
            match chainCInner m th nc rng metaRev 0 0 with
            | (rng', metaRev', nc', maxv) =>
              if metaRev'.length > 10000 then some (rng', metaRev', total + maxv)
              else chainCLoop m th fuel nc' rng' metaRev' (total + maxv) := rfl
      rw [hstep, if_neg hnc]
      obtain ⟨hL, hN⟩ := chainCInner_spec m th nc rng metaRev 0 0
      rcases hCI : chainCInner m th nc rng metaRev 0 0 with ⟨rng', metaRev', nc', maxv⟩
      rw [hCI] at hL hN
      dsimp only at hL hN ⊢
      by_cases hlen : metaRev'.length > 10000
      · exact ⟨rng', metaRev', total + maxv, by rw [if_pos hlen], by omega⟩
      · rw [if_neg hlen]
        obtain ⟨r2, m2, t2, hrec, hb⟩ := ih nc' rng' metaRev' (total + maxv)
          (by omega) (by omega)
        exact ⟨r2, m2, t2, hrec, by omega⟩

/-- On the all-zero stream with threshold 1, every roll is a 1 and every
roll spawns, so one round of size `cur` adds `cur` ones. -/
theorem chainAInner_gZero :
    ∀ (cur i : Nat) (metaRev : List Int) (nc : Nat) (total : Int),
      chainAInner 10 1 cur ⟨gZero, i⟩ metaRev nc total =
        (⟨gZero, i + cur⟩, List.replicate cur 1 ++ metaRev, nc + cur, total + cur) := by
  intro cur
  induction cur with
  | zero =>
    intro i metaRev nc total
    have h0 : chainAInner 10 1 0 ⟨gZero, i⟩ metaRev nc total =
        (⟨gZero, i⟩, metaRev, nc, total) := rfl
    rw [h0]
    simp
  | succ cur ih =>
    intro i metaRev nc total
    have hstep : chainAInner 10 1 (cur + 1) ⟨gZero, i⟩ metaRev nc total =
        chainAInner 10 1 cur ⟨gZero, i + 1⟩ ((1 : Int) :: metaRev) (nc + 1) (total + 1) := rfl
    rw [hstep, ih (i + 1) ((1 : Int) :: metaRev) (nc + 1) (total + 1)]
    simp [List.replicate_succ', List.append_assoc]
    refine ⟨by omega, by omega, by omega⟩

/-- A non-terminal `a`-loop step rewritten through its round. -/
theorem chainALoop_round (m th : Int) (fuel nc : Nat) (rng : Rng)
    (metaRev : List Int) (total : Int) (rng' : Rng) (metaRev' : List Int)
    (nc' : Nat) (total' : Int)
    (h : chainAInner m th nc rng metaRev 0 total = (rng', metaRev', nc', total'))
    (hnc : ¬nc = 0) :
    chainALoop m th (fuel + 1) nc rng metaRev total =
      if metaRev'.length > 10000 then some (rng', metaRev', total')
      else chainALoop m th fuel nc' rng' metaRev' total' := by
  have hstep : chainALoop m th (fuel + 1) nc rng metaRev total =
      if nc = 0 then some (rng, metaRev, total)
      else
        match chainAInner m th nc rng metaRev 0 total with
        | (rng', metaRev', nc', total') =>
          if metaRev'.length > 10000 then some (rng', metaRev', total')
          else chainALoop m th fuel nc' rng' metaRev' total' := rfl
  rw [hstep, if_neg hnc, h]

/-- A round that stays at or under the cap continues the loop. -/
theorem chainALoop_round_continue (m th : Int) (fuel nc : Nat) (rng : Rng)
    (metaRev : List Int) (total : Int) (rng' : Rng) (metaRev' : List Int)
    (nc' : Nat) (total' : Int)
    (h : chainAInner m th nc rng metaRev 0 total = (rng', metaRev', nc', total'))
    (hnc : ¬nc = 0) (hlen : ¬metaRev'.length > 10000) :
    chainALoop m th (fuel + 1) nc rng metaRev total =
      chainALoop m th fuel nc' rng' metaRev' total' := by
  rw [chainALoop_round m th fuel nc rng metaRev total rng' metaRev' nc' total' h hnc,
    if_neg hlen]

/-- A round that pushes past the cap exits the loop. -/
theorem chainALoop_round_break (m th : Int) (fuel nc : Nat) (rng : Rng)
    (metaRev : List Int) (total : Int) (rng' : Rng) (metaRev' : List Int)
    (nc' : Nat) (total' : Int)
    (h : chainAInner m th nc rng metaRev 0 total = (rng', metaRev', nc', total'))
    (hnc : ¬nc = 0) (hlen : metaRev'.length > 10000) :
    chainALoop m th (fuel + 1) nc rng metaRev total = some (rng', metaRev', total') := by
  rw [chainALoop_round m th fuel nc rng metaRev total rng' metaRev' nc' total' h hnc,
    if_pos hlen]

/-- On the all-zero stream, `5001a1` runs two full rounds of 5001 rolls
each before the cap check fires, ending with 10002 recorded rolls. -/
theorem chainALoop_gZero_5001 :
    chainALoop 10 1 10002 5001 ⟨gZero, 0⟩ [] 0 =
      some (⟨gZero, 10002⟩, List.replicate 10002 1, 10002) := by
  have hA1 : chainAInner (10 : Int) 1 5001 ⟨gZero, 0⟩ [] 0 0 =
      (⟨gZero, 5001⟩, List.replicate 5001 1, 5001, 5001) := by
    rewrite [chainAInner_gZero 5001 0 [] 0 0]
    norm_num
  have hA2 : chainAInner (10 : Int) 1 5001 ⟨gZero, 5001⟩ (List.replicate 5001 1) 0 5001 =
      (⟨gZero, 10002⟩, List.replicate 10002 1, 5001, 10002) := by
    rewrite [chainAInner_gZero 5001 5001 (List.replicate 5001 1) 0 5001]
    rewrite [show (10002 : Nat) = 5001 + 5001 from rfl, List.replicate_add]
    norm_num
  nth_rewrite 1 [show (10002 : Nat) = 10001 + 1 from rfl]
  refine Eq.trans (chainALoop_round_continue 10 1 10001 5001 ⟨gZero, 0⟩ [] 0
    ⟨gZero, 5001⟩ (List.replicate 5001 1) 5001 5001 hA1 (by decide)
    (by rewrite [List.length_replicate]; decide)) ?_
  nth_rewrite 1 [show (10001 : Nat) = 10000 + 1 from rfl]
  exact chainALoop_round_break 10 1 10000 5001 ⟨gZero, 5001⟩
    (List.replicate 5001 1) 5001 ⟨gZero, 10002⟩ (List.replicate 10002 1) 5001 10002
    hA2 (by decide) (by rewrite [List.length_replicate]; decide)

/-- C4 counterexample: in-domain operands `times = 5001`, `threshold = 1`
(both within the claimed domain) make the `a` operator return a meta list
of 10002 rolls — the 10000 cap is only checked between rounds, so the
final round overshoots it. -/
theorem C4_counterexample_cap_overshoot :
    ∃ meta : List Int,
      evalStep 1 ⟨none, [], ⟨gZero, 0⟩, 100⟩
          [Value.scalar 1, Value.scalar 5001] "a" =
        .ok ([⟨10002, some meta, true, 0, false, none⟩],
          ⟨none, [], ⟨gZero, 10002⟩, 100⟩) ∧
      10000 < meta.length := by
  refine ⟨List.replicate 10002 1, ?_, by rewrite [List.length_replicate]; decide⟩
  have hdispatch : ∀ (st : EvalSt) (rightV leftV : Value) (rest : List Value),
      evalStep 1 st (rightV :: leftV :: rest) "a" =
        (if leftV.V < 0 ∨ leftV.V > 10000 then .error .nodeLeftValInvalid
         else if rightV.V ≤ 0 ∨ rightV.V > 10000 then .error .nodeRightValInvalid
         else
           match chainALoop 10 rightV.V 10002 leftV.V.toNat st.rng [] 0 with
           | none => .error .unknownGenerate
           | some (rng', metaRev, total) =>
             let meta := metaRev.reverse
             .ok ([⟨total, some meta, decide (meta.length > 0), 0, false, none⟩] ++ rest,
               { st with rng := rng' })) := fun _ _ _ _ => rfl
  rewrite [hdispatch ⟨none, [], ⟨gZero, 0⟩, 100⟩ (Value.scalar 1) (Value.scalar 5001) []]
  rewrite [if_neg (by decide), if_neg (by decide)]
  have harg : chainALoop 10 (Value.scalar 1).V 10002 (Value.scalar 5001).V.toNat
      ((⟨none, [], ⟨gZero, 0⟩, 100⟩ : EvalSt)).rng [] 0 =
      chainALoop 10 1 10002 5001 ⟨gZero, 0⟩ [] 0 := rfl
  rewrite [harg, chainALoop_gZero_5001]
  show Except.ok
      ([(⟨(10002 : Int), some ((List.replicate 10002 (1 : Int)).reverse),
          decide ((List.replicate 10002 (1 : Int)).reverse.length > 0), 0, false,
          none⟩ : Value)],
        (⟨none, [], ⟨gZero, 10002⟩, 100⟩ : EvalSt)) = _
  rewrite [List.reverse_replicate, List.length_replicate]
  rfl

/-- C4: with in-domain operands every chain loop terminates (the Go
`for` loops exit), and the returned roll list exceeds the 10000 cap by at
most the size of the final round — hence is at most `10000 + times`; the
`a`, `c`, `a_m`, `c_m` steps of `evalRPN` all succeed on in-domain
operands with that bound on their meta list. -/
theorem C4_chain_termination_cap :
    (∀ (m th : Int) (nc : Nat) (rng : Rng),
      ∃ rng' metaRev' total',
        chainALoop m th 10002 nc rng [] 0 = some (rng', metaRev', total') ∧
        metaRev'.length ≤ 10000 + nc) ∧
    (∀ (m th : Int) (nc : Nat) (rng : Rng),
      ∃ rng' metaRev' total',
        chainCLoop m th 10002 nc rng [] 0 = some (rng', metaRev', total') ∧
        metaRev'.length ≤ 10000 + nc) ∧
    (∀ (fuel : Nat) (st : EvalSt) (rightV leftV : Value) (rest : List Value),
      0 ≤ leftV.V → leftV.V ≤ 10000 → 0 < rightV.V → rightV.V ≤ 10000 →
      ∃ v st', evalStep (fuel + 1) st (rightV :: leftV :: rest) "a" = .ok (v :: rest, st') ∧
        ∀ l, v.Meta = some l → l.length ≤ 10000 + leftV.V.toNat) ∧
    (∀ (fuel : Nat) (st : EvalSt) (rightV leftV : Value) (rest : List Value),
      0 ≤ leftV.V → leftV.V ≤ 10000 → 0 < rightV.V → rightV.V ≤ 10000 →
      ∃ v st', evalStep (fuel + 1) st (rightV :: leftV :: rest) "c" = .ok (v :: rest, st') ∧
        ∀ l, v.Meta = some l → l.length ≤ 10000 + leftV.V.toNat) ∧
    (∀ (fuel : Nat) (st : EvalSt) (facesV rightV leftV : Value) (rest : List Value),
      0 ≤ leftV.V → leftV.V ≤ 10000 → 0 < rightV.V → rightV.V ≤ 10000 →
      0 < facesV.V → facesV.V ≤ 10000 →
      ∃ v st', evalStep (fuel + 1) st (facesV :: rightV :: leftV :: rest) "a_m" =
          .ok (v :: rest, st') ∧
        ∀ l, v.Meta = some l → l.length ≤ 10000 + leftV.V.toNat) ∧
    (∀ (fuel : Nat) (st : EvalSt) (facesV rightV leftV : Value) (rest : List Value),
      0 ≤ leftV.V → leftV.V ≤ 10000 → 0 < rightV.V → rightV.V ≤ 10000 →
      0 < facesV.V → facesV.V ≤ 10000 →
      ∃ v st', evalStep (fuel + 1) st (facesV :: rightV :: leftV :: rest) "c_m" =
          .ok (v :: rest, st') ∧
        ∀ l, v.Meta = some l → l.length ≤ 10000 + leftV.V.toNat) := by
  refine ⟨?_, ?_, ?_, ?_, ?_, ?_⟩
  · intro m th nc rng
    exact chainALoop_spec m th 10002 nc rng [] 0 (by simp) (by simp)
  · intro m th nc rng
    exact chainCLoop_spec m th 10002 nc rng [] 0 (by simp) (by simp)
  · intro fuel st rightV leftV rest h1 h2 h3 h4
    have hstep : evalStep (fuel + 1) st (rightV :: leftV :: rest) "a" =
        (if leftV.V < 0 ∨ leftV.V > 10000 then .error .nodeLeftValInvalid
         else if rightV.V ≤ 0 ∨ rightV.V > 10000 then .error .nodeRightValInvalid
         else
           match chainALoop 10 rightV.V 10002 leftV.V.toNat st.rng [] 0 with
           | none => .error .unknownGenerate
           | some (rng', metaRev, total) =>
             let meta := metaRev.reverse
             .ok ([⟨total, some meta, decide (meta.length > 0), 0, false, none⟩] ++ rest,
               { st with rng := rng' })) := rfl
    rw [hstep, if_neg (by omega), if_neg (by omega)]
    obtain ⟨rng', metaRev', total', hloop, hb⟩ :=
      chainALoop_spec 10 rightV.V 10002 leftV.V.toNat st.rng [] 0 (by simp) (by simp)
    rw [hloop]
    refine ⟨⟨total', some metaRev'.reverse,
      decide (metaRev'.reverse.length > 0), 0, false, none⟩, { st with rng := rng' },
      rfl, ?_⟩
    intro l hl
    rw [← Option.some.inj hl, List.length_reverse]
    exact hb
  · intro fuel st rightV leftV rest h1 h2 h3 h4
    have hstep : evalStep (fuel + 1) st (rightV :: leftV :: rest) "c" =
        (if leftV.V < 0 ∨ leftV.V > 10000 then .error .nodeLeftValInvalid
         else if rightV.V ≤ 0 ∨ rightV.V > 10000 then .error .nodeRightValInvalid
         else
           match chainCLoop 10 rightV.V 10002 leftV.V.toNat st.rng [] 0 with
           | none => .error .unknownGenerate
           | some (rng', metaRev, total) =>
             let meta := metaRev.reverse
             .ok ([⟨total, some meta, decide (meta.length > 0), 0, false, none⟩] ++ rest,
               { st with rng := rng' })) := rfl
    rw [hstep, if_neg (by omega), if_neg (by omega)]
    obtain ⟨rng', metaRev', total', hloop, hb⟩ :=
      chainCLoop_spec 10 rightV.V 10002 leftV.V.toNat st.rng [] 0 (by simp) (by simp)
    rw [hloop]
    refine ⟨⟨total', some metaRev'.reverse,
      decide (metaRev'.reverse.length > 0), 0, false, none⟩, { st with rng := rng' },
      rfl, ?_⟩
    intro l hl
    rw [← Option.some.inj hl, List.length_reverse]
    exact hb
  · intro fuel st facesV rightV leftV rest h1 h2 h3 h4 h5 h6
    have hstep : evalStep (fuel + 1) st (facesV :: rightV :: leftV :: rest) "a_m" =
        (if leftV.V < 0 ∨ leftV.V > 10000 then .error .nodeLeftValInvalid
         else if rightV.V ≤ 0 ∨ rightV.V > 10000 then .error .nodeRightValInvalid
         else if facesV.V ≤ 0 ∨ facesV.V > 10000 then .error .nodeRightValInvalid
         else
           match chainALoop facesV.V rightV.V 10002 leftV.V.toNat st.rng [] 0 with
           | none => .error .unknownGenerate
           | some (rng', metaRev, total) =>
             let meta := metaRev.reverse
             .ok ([⟨total, some meta, decide (meta.length > 0), 0, false, none⟩] ++ rest,
               { st with rng := rng' })) := rfl
    rw [hstep, if_neg (by omega), if_neg (by omega), if_neg (by omega)]
    obtain ⟨rng', metaRev', total', hloop, hb⟩ :=
      chainALoop_spec facesV.V rightV.V 10002 leftV.V.toNat st.rng [] 0 (by simp) (by simp)
    rw [hloop]
    refine ⟨⟨total', some metaRev'.reverse,
      decide (metaRev'.reverse.length > 0), 0, false, none⟩, { st with rng := rng' },
      rfl, ?_⟩
    intro l hl
    rw [← Option.some.inj hl, List.length_reverse]
    exact hb
  · intro fuel st facesV rightV leftV rest h1 h2 h3 h4 h5 h6
    have hstep : evalStep (fuel + 1) st (facesV :: rightV :: leftV :: rest) "c_m" =
        (if leftV.V < 0 ∨ leftV.V > 10000 then .error .nodeLeftValInvalid
         else if rightV.V ≤ 0 ∨ rightV.V > 10000 then .error .nodeRightValInvalid
         else if facesV.V ≤ 0 ∨ facesV.V > 10000 then .error .nodeRightValInvalid
         else
           match chainCLoop facesV.V rightV.V 10002 leftV.V.toNat st.rng [] 0 with
           | none => .error .unknownGenerate
           | some (rng', metaRev, total) =>
             let meta := metaRev.reverse
             .ok ([⟨total, some meta, decide (meta.length > 0), 0, false, none⟩] ++ rest,
               { st with rng := rng' })) := rfl
    rw [hstep, if_neg (by omega), if_neg (by omega), if_neg (by omega)]
    obtain ⟨rng', metaRev', total', hloop, hb⟩ :=
      chainCLoop_spec facesV.V rightV.V 10002 leftV.V.toNat st.rng [] 0 (by simp) (by simp)
    rw [hloop]
    refine ⟨⟨total', some metaRev'.reverse,
      decide (metaRev'.reverse.length > 0), 0, false, none⟩, { st with rng := rng' },
      rfl, ?_⟩
    intro l hl
    rw [← Option.some.inj hl, List.length_reverse]
    exact hb

/-- Witness for C4: the `a` step on `0a1` (an empty chain). -/
theorem C4_chain_termination_cap_witness :
    ∃ v st', evalStep 1 ⟨none, [], ⟨gZero, 0⟩, 100⟩
        (Value.scalar 1 :: Value.scalar 0 :: []) "a" = .ok (v :: [], st') ∧
      ∀ l, v.Meta = some l → l.length ≤ 10000 + (Value.scalar 0).V.toNat :=
  C4_chain_termination_cap.2.2.1 0 ⟨none, [], ⟨gZero, 0⟩, 100⟩
    (Value.scalar 1) (Value.scalar 0) [] (by decide) (by decide) (by decide) (by decide)

/-- The running sum of the `d` roll loop equals the sum of its rolls. -/
theorem rollDice_sum (sides : Int) : ∀ (n : Nat) (rng : Rng),
    (rollDice n sides rng).2.1 = (rollDice n sides rng).1.sum := by
  intro n
  induction n with
  | zero => intro rng; rfl
  | succ n ih =>
    intro rng
    have hraw : rollDice (n + 1) sides rng =
        (match rollDice n sides (intn rng sides).2 with
         | (rest, s, rng') =>
           (((intn rng sides).1 + 1) :: rest, ((intn rng sides).1 + 1) + s, rng')) := rfl
    rcases hres : rollDice n sides (intn rng sides).2 with ⟨rest, s, rng'⟩
    have hstep : rollDice (n + 1) sides rng =
        (((intn rng sides).1 + 1) :: rest, ((intn rng sides).1 + 1) + s, rng') := by
      rw [hraw, hres]
    have ih' := ih (intn rng sides).2
    rw [hres] at ih'
    dsimp only at ih'
    rw [hstep]
    dsimp only
    rw [ih']
    simp

/-- The running sum of the `f` roll loop equals the sum of its rolls. -/
theorem rollFudge_sum : ∀ (n : Nat) (rng : Rng),
    (rollFudge n rng).2.1 = (rollFudge n rng).1.sum := by
  intro n
  induction n with
  | zero => intro rng; rfl
  | succ n ih =>
    intro rng
    have hraw : rollFudge (n + 1) rng =
        (match rollFudge n (intn rng 3).2 with
         | (rest, s, rng') =>
           (((intn rng 3).1 - 1) :: rest, ((intn rng 3).1 - 1) + s, rng')) := rfl
    rcases hres : rollFudge n (intn rng 3).2 with ⟨rest, s, rng'⟩
    have hstep : rollFudge (n + 1) rng =
        (((intn rng 3).1 - 1) :: rest, ((intn rng 3).1 - 1) + s, rng') := by
      rw [hraw, hres]
    have ih' := ih (intn rng 3).2
    rw [hres] at ih'
    dsimp only at ih'
    rw [hstep]
    dsimp only
    rw [ih']
    simp

/-- The running sum of the `min`/`max` clamping loop equals the sum of
the clamped list. -/
theorem minmaxLoop_sum (isMax : Bool) (n : Int) : ∀ l : List Int,
    (minmaxLoop isMax n l).2 = (minmaxLoop isMax n l).1.sum := by
  intro l
  induction l with
  | nil => rfl
  | cons rv rest ih =>
    have hraw : minmaxLoop isMax n (rv :: rest) =
        (match minmaxLoop isMax n rest with
         | (l, s) =>
           ((if isMax then (if rv > n then n else rv) else (if rv < n then n else rv)) :: l,
            (if isMax then (if rv > n then n else rv) else (if rv < n then n else rv)) + s)) := rfl
    rcases hres : minmaxLoop isMax n rest with ⟨l', s⟩
    have hstep : minmaxLoop isMax n (rv :: rest) =
        ((if isMax then (if rv > n then n else rv) else (if rv < n then n else rv)) :: l',
         (if isMax then (if rv > n then n else rv) else (if rv < n then n else rv)) + s) := by
      rw [hraw, hres]
    rw [hres] at ih
    dsimp only at ih
    rw [hstep]
    dsimp only
    rw [ih]
    simp

/-- Every branch of `selectFromMeta` returns the sum of its kept list. -/
theorem selectFromMeta_sum (src : List Int) (n : Int) (mode : String) :
    (selectFromMeta src n mode).2 = (selectFromMeta src n mode).1.sum := by
  unfold selectFromMeta
  split_ifs <;> try simp [sumGo_eq_sum]
  all_goals split_ifs <;> rfl

/-- Dispatch of the `d` step (projection form of the roll tuple). -/
theorem evalStep_d_dispatch (fuel : Nat) (st : EvalSt) (sidesV timesV : Value)
    (rest : List Value) :
    evalStep (fuel + 1) st (sidesV :: timesV :: rest) "d" =
      (if lastMetaOrV timesV ≤ 0 ∨ lastMetaOrV timesV > 10000 then
        .error .nodeLeftValInvalid
       else if lastMetaOrV sidesV ≤ 0 ∨ lastMetaOrV sidesV > 10000 then
        .error .nodeRightValInvalid
       else
        .ok (⟨(rollDice (lastMetaOrV timesV).toNat (lastMetaOrV sidesV) st.rng).2.1,
            some (rollDice (lastMetaOrV timesV).toNat (lastMetaOrV sidesV) st.rng).1,
            true, 0, false, none⟩ :: rest,
          { st with rng :=
              (rollDice (lastMetaOrV timesV).toNat (lastMetaOrV sidesV) st.rng).2.2 })) :=
  rfl

/-- Dispatch of the `f` step (projection form of the roll tuple). -/
theorem evalStep_f_dispatch (fuel : Nat) (st : EvalSt) (rightF leftF : Value)
    (rest : List Value) :
    evalStep (fuel + 1) st (rightF :: leftF :: rest) "f" =
      (if rightF.V ≤ 1 ∨ rightF.V > 10000 then .error .nodeRightValInvalid
       else if leftF.V ≤ 0 ∨ leftF.V > 10000 then .error .nodeLeftValInvalid
       else
        .ok (⟨(rollFudge leftF.V.toNat st.rng).2.1,
            some (rollFudge leftF.V.toNat st.rng).1, true, 0, false, none⟩ :: rest,
          { st with rng := (rollFudge leftF.V.toNat st.rng).2.2 })) :=
  rfl

/-- Dispatch of the `k` step (projection form of the selection pair). -/
theorem evalStep_k_dispatch (fuel : Nat) (st : EvalSt) (param left : Value)
    (rest : List Value) :
    evalStep (fuel + 1) st (param :: left :: rest) "k" =
      (if param.V ≤ 0 then .error .nodeRightValInvalid
       else
         match resolveMetaValues fuel st left with
         | (none, st') => let _ := st'; .error .nodeLeftValInvalid
         | (some rolls, st') =>
           .ok (⟨(selectFromMeta rolls param.V "kh").2,
               some (selectFromMeta rolls param.V "kh").1,
               decide ((selectFromMeta rolls param.V "kh").1.length > 0), 0, false,
               none⟩ :: rest, st')) :=
  rfl

/-- Dispatch of the `q` step (projection form of the selection pair). -/
theorem evalStep_q_dispatch (fuel : Nat) (st : EvalSt) (param left : Value)
    (rest : List Value) :
    evalStep (fuel + 1) st (param :: left :: rest) "q" =
      (if param.V ≤ 0 then .error .nodeRightValInvalid
       else
         match resolveMetaValues fuel st left with
         | (none, st') => let _ := st'; .error .nodeLeftValInvalid
         | (some rolls, st') =>
           .ok (⟨(selectFromMeta rolls param.V "kl").2,
               some (selectFromMeta rolls param.V "kl").1,
               decide ((selectFromMeta rolls param.V "kl").1.length > 0), 0, false,
               none⟩ :: rest, st')) :=
  rfl

/-- Dispatch of the `sp` step. -/
theorem evalStep_sp_dispatch (fuel : Nat) (st : EvalSt) (paramSp leftSp : Value)
    (rest : List Value) :
    evalStep (fuel + 1) st (paramSp :: leftSp :: rest) "sp" =
      (if !leftSp.MetaEnable then
        if paramSp.V = 1 ∨ paramSp.V = -1 then
          .ok (⟨leftSp.V, some [leftSp.V], true, 0, false, none⟩ :: rest, st)
        else .error .nodeLeftValInvalid
       else
        if paramSp.V = 0 then .error .nodeRightValInvalid
        else
          if (if paramSp.V > 0 then paramSp.V - 1
              else ((leftSp.Meta.getD []).length : Int) + paramSp.V) < 0 ∨
             (if paramSp.V > 0 then paramSp.V - 1
              else ((leftSp.Meta.getD []).length : Int) + paramSp.V) ≥
               ((leftSp.Meta.getD []).length : Int) then
            .error .nodeRightValInvalid
          else
            .ok (⟨(leftSp.Meta.getD []).getD
                  (if paramSp.V > 0 then paramSp.V - 1
                   else ((leftSp.Meta.getD []).length : Int) + paramSp.V).toNat 0,
                some [(leftSp.Meta.getD []).getD
                  (if paramSp.V > 0 then paramSp.V - 1
                   else ((leftSp.Meta.getD []).length : Int) + paramSp.V).toNat 0],
                true, 0, false, none⟩ :: rest, st)) :=
  rfl

/-- Dispatch of the `tp` step. -/
theorem evalStep_tp_dispatch (fuel : Nat) (st : EvalSt) (paramTp leftTp : Value)
    (rest : List Value) :
    evalStep (fuel + 1) st (paramTp :: leftTp :: rest) "tp" =
      (if !leftTp.MetaEnable then
        if paramTp.V = 1 ∨ paramTp.V = -1 then
          .ok (⟨0, some [], false, 0, false, none⟩ :: rest, st)
        else .error .nodeLeftValInvalid
       else
        if paramTp.V = 0 then .error .nodeRightValInvalid
        else
          if (if paramTp.V > 0 then paramTp.V - 1
              else ((leftTp.Meta.getD []).length : Int) + paramTp.V) < 0 ∨
             (if paramTp.V > 0 then paramTp.V - 1
              else ((leftTp.Meta.getD []).length : Int) + paramTp.V) ≥
               ((leftTp.Meta.getD []).length : Int) then
            .error .nodeRightValInvalid
          else
            .ok (⟨sumGo ((leftTp.Meta.getD []).take
                    (if paramTp.V > 0 then paramTp.V - 1
                     else ((leftTp.Meta.getD []).length : Int) + paramTp.V).toNat ++
                  (leftTp.Meta.getD []).drop
                    ((if paramTp.V > 0 then paramTp.V - 1
                      else ((leftTp.Meta.getD []).length : Int) + paramTp.V).toNat + 1)),
                some ((leftTp.Meta.getD []).take
                    (if paramTp.V > 0 then paramTp.V - 1
                     else ((leftTp.Meta.getD []).length : Int) + paramTp.V).toNat ++
                  (leftTp.Meta.getD []).drop
                    ((if paramTp.V > 0 then paramTp.V - 1
                      else ((leftTp.Meta.getD []).length : Int) + paramTp.V).toNat + 1)),
                decide (((leftTp.Meta.getD []).take
                    (if paramTp.V > 0 then paramTp.V - 1
                     else ((leftTp.Meta.getD []).length : Int) + paramTp.V).toNat ++
                  (leftTp.Meta.getD []).drop
                    ((if paramTp.V > 0 then paramTp.V - 1
                      else ((leftTp.Meta.getD []).length : Int) + paramTp.V).toNat + 1)).length > 0),
                0, false, none⟩ :: rest, st)) :=
  rfl

/-- Dispatch of the `lp` step. -/
theorem evalStep_lp_dispatch (fuel : Nat) (st : EvalSt) (paramLp leftLp : Value)
    (rest : List Value) :
    evalStep (fuel + 1) st (paramLp :: leftLp :: rest) "lp" =
      (if paramLp.V ≤ 0 then .error .nodeRightValInvalid
       else
         match leftLp.MetaStr with
         | some templates =>
           if templates ≠ [] then
             .ok (⟨0, none, true, 0, false,
               some (lpRepeat templates paramLp.V.toNat 1)⟩ :: rest, st)
           else
             match resolveMetaValues fuel st leftLp with
             | (none, st') => let _ := st'; .error .nodeLeftValInvalid
             | (some rollsLp, st') =>
               .ok (⟨sumGo (repeatList rollsLp paramLp.V.toNat),
                   some (repeatList rollsLp paramLp.V.toNat),
                   decide ((repeatList rollsLp paramLp.V.toNat).length > 0), 0,
                   false, none⟩ :: rest, st')
         | none =>
           match resolveMetaValues fuel st leftLp with
           | (none, st') => let _ := st'; .error .nodeLeftValInvalid
           | (some rollsLp, st') =>
             .ok (⟨sumGo (repeatList rollsLp paramLp.V.toNat),
                 some (repeatList rollsLp paramLp.V.toNat),
                 decide ((repeatList rollsLp paramLp.V.toNat).length > 0), 0,
                 false, none⟩ :: rest, st')) :=
  rfl

/-- Every sum-family operator pushes a value whose `V` equals the sum of
its integer meta list whenever it succeeds. -/
theorem evalStep_sumOp (t : String)
    (ht : t ∈ (["d", "k", "q", "lp", "kh", "kl", "dh", "dl", "min", "max", "f",
      "sp", "tp"] : List String))
    (fuel : Nat) (st : EvalSt) (stack stack₂ : List Value) (st₂ : EvalSt)
    (h : evalStep fuel st stack t = .ok (stack₂, st₂)) :
    ∃ v rest, stack₂ = v :: rest ∧ ∀ l, v.Meta = some l → v.V = l.sum := by
  cases fuel with
  | zero => exact Except.noConfusion h
  | succ fuel =>
    fin_cases ht
    -- d
    · rcases stack with _ | ⟨sidesV, _ | ⟨timesV, rest⟩⟩
      · exact Except.noConfusion h
      · exact Except.noConfusion h
      · rw [evalStep_d_dispatch] at h
        split_ifs at h
        all_goals try exact Except.noConfusion h
        injection h with h1
        injection h1 with hS hT
        subst hS
        refine ⟨_, rest, rfl, ?_⟩
        intro l hl
        have hls := Option.some.inj hl
        subst hls
        exact rollDice_sum (lastMetaOrV sidesV) (lastMetaOrV timesV).toNat st.rng
    -- k
    · rcases stack with _ | ⟨param, _ | ⟨left, rest⟩⟩
      · exact Except.noConfusion h
      · exact Except.noConfusion h
      · rw [evalStep_k_dispatch] at h
        split_ifs at h
        all_goals try exact Except.noConfusion h
        rcases hRM : resolveMetaValues fuel st left with ⟨o, st'⟩
        rcases o with _ | rolls
        · rw [hRM] at h
          exact Except.noConfusion h
        · rw [hRM] at h
          dsimp only at h
          injection h with h1
          injection h1 with hS hT
          subst hS
          refine ⟨_, rest, rfl, ?_⟩
          intro l hl
          have hls := Option.some.inj hl
          subst hls
          exact selectFromMeta_sum rolls param.V "kh"
    -- q
    · rcases stack with _ | ⟨param, _ | ⟨left, rest⟩⟩
      · exact Except.noConfusion h
      · exact Except.noConfusion h
      · rw [evalStep_q_dispatch] at h
        split_ifs at h
        all_goals try exact Except.noConfusion h
        rcases hRM : resolveMetaValues fuel st left with ⟨o, st'⟩
        rcases o with _ | rolls
        · rw [hRM] at h
          exact Except.noConfusion h
        · rw [hRM] at h
          dsimp only at h
          injection h with h1
          injection h1 with hS hT
          subst hS
          refine ⟨_, rest, rfl, ?_⟩
          intro l hl
          have hls := Option.some.inj hl
          subst hls
          exact selectFromMeta_sum rolls param.V "kl"
    -- lp
    · rcases stack with _ | ⟨paramLp, _ | ⟨leftLp, rest⟩⟩
      · exact Except.noConfusion h
      · exact Except.noConfusion h
      · rw [evalStep_lp_dispatch] at h
        split_ifs at h
        all_goals try exact Except.noConfusion h
        rcases hMS : leftLp.MetaStr with _ | templates
        · rw [hMS] at h
          dsimp only at h
          rcases hRM : resolveMetaValues fuel st leftLp with ⟨o, st'⟩
          rcases o with _ | rollsLp
          · rw [hRM] at h
            exact Except.noConfusion h
          · rw [hRM] at h
            dsimp only at h
            injection h with h1
            injection h1 with hS hT
            subst hS
            refine ⟨_, rest, rfl, ?_⟩
            intro l hl
            have hls := Option.some.inj hl
            subst hls
            exact sumGo_eq_sum _
        · rw [hMS] at h
          dsimp only at h
          split_ifs at h
          · injection h with h1
            injection h1 with hS hT
            subst hS
            refine ⟨_, rest, rfl, ?_⟩
            intro l hl
            exact Option.noConfusion hl
          · rcases hRM : resolveMetaValues fuel st leftLp with ⟨o, st'⟩
            rcases o with _ | rollsLp
            · rw [hRM] at h
              exact Except.noConfusion h
            · rw [hRM] at h
              dsimp only at h
              injection h with h1
              injection h1 with hS hT
              subst hS
              refine ⟨_, rest, rfl, ?_⟩
              intro l hl
              have hls := Option.some.inj hl
              subst hls
              exact sumGo_eq_sum _
    -- kh
    · rcases stack with _ | ⟨paramOp, _ | ⟨leftOp, rest⟩⟩
      · exact Except.noConfusion h
      · exact Except.noConfusion h
      · rw [evalStep_khFamily "kh" (Or.inl rfl)] at h
        split_ifs at h
        all_goals try exact Except.noConfusion h
        unfold khFamilyTail at h
        rcases hRM : resolveMetaValues fuel st leftOp with ⟨o, st'⟩
        rcases o with _ | rollsRaw
        · rw [hRM] at h
          exact Except.noConfusion h
        · rw [hRM] at h
          dsimp only at h
          split_ifs at h
          all_goals try exact Except.noConfusion h
          rcases hSel : selectFromMeta rollsRaw paramOp.V "kh" with ⟨sel, s⟩
          rw [hSel] at h
          dsimp only at h
          injection h with h1
          injection h1 with hS hT
          subst hS
          refine ⟨_, rest, rfl, ?_⟩
          intro l hl
          have hls := Option.some.inj hl
          subst hls
          have hsum := selectFromMeta_sum rollsRaw paramOp.V "kh"
          rw [hSel] at hsum
          exact hsum
    -- kl
    · rcases stack with _ | ⟨paramOp, _ | ⟨leftOp, rest⟩⟩
      · exact Except.noConfusion h
      · exact Except.noConfusion h
      · rw [evalStep_khFamily "kl" (Or.inr (Or.inl rfl))] at h
        split_ifs at h
        all_goals try exact Except.noConfusion h
        unfold khFamilyTail at h
        rcases hRM : resolveMetaValues fuel st leftOp with ⟨o, st'⟩
        rcases o with _ | rollsRaw
        · rw [hRM] at h
          exact Except.noConfusion h
        · rw [hRM] at h
          dsimp only at h
          split_ifs at h
          all_goals try exact Except.noConfusion h
          rcases hSel : selectFromMeta rollsRaw paramOp.V "kl" with ⟨sel, s⟩
          rw [hSel] at h
          dsimp only at h
          injection h with h1
          injection h1 with hS hT
          subst hS
          refine ⟨_, rest, rfl, ?_⟩
          intro l hl
          have hls := Option.some.inj hl
          subst hls
          have hsum := selectFromMeta_sum rollsRaw paramOp.V "kl"
          rw [hSel] at hsum
          exact hsum
    -- dh
    · rcases stack with _ | ⟨paramOp, _ | ⟨leftOp, rest⟩⟩
      · exact Except.noConfusion h
      · exact Except.noConfusion h
      · rw [evalStep_khFamily "dh" (Or.inr (Or.inr (Or.inl rfl)))] at h
        split_ifs at h
        all_goals try exact Except.noConfusion h
        unfold khFamilyTail at h
        rcases hRM : resolveMetaValues fuel st leftOp with ⟨o, st'⟩
        rcases o with _ | rollsRaw
        · rw [hRM] at h
          exact Except.noConfusion h
        · rw [hRM] at h
          dsimp only at h
          split_ifs at h
          all_goals try exact Except.noConfusion h
          rcases hSel : selectFromMeta rollsRaw paramOp.V "dh" with ⟨sel, s⟩
          rw [hSel] at h
          dsimp only at h
          injection h with h1
          injection h1 with hS hT
          subst hS
          refine ⟨_, rest, rfl, ?_⟩
          intro l hl
          have hls := Option.some.inj hl
          subst hls
          have hsum := selectFromMeta_sum rollsRaw paramOp.V "dh"
          rw [hSel] at hsum
          exact hsum
    -- dl
    · rcases stack with _ | ⟨paramOp, _ | ⟨leftOp, rest⟩⟩
      · exact Except.noConfusion h
      · exact Except.noConfusion h
      · rw [evalStep_khFamily "dl" (Or.inr (Or.inr (Or.inr rfl)))] at h
        split_ifs at h
        all_goals try exact Except.noConfusion h
        unfold khFamilyTail at h
        rcases hRM : resolveMetaValues fuel st leftOp with ⟨o, st'⟩
        rcases o with _ | rollsRaw
        · rw [hRM] at h
          exact Except.noConfusion h
        · rw [hRM] at h
          dsimp only at h
          split_ifs at h
          all_goals try exact Except.noConfusion h
          rcases hSel : selectFromMeta rollsRaw paramOp.V "dl" with ⟨sel, s⟩
          rw [hSel] at h
          dsimp only at h
          injection h with h1
          injection h1 with hS hT
          subst hS
          refine ⟨_, rest, rfl, ?_⟩
          intro l hl
          have hls := Option.some.inj hl
          subst hls
          have hsum := selectFromMeta_sum rollsRaw paramOp.V "dl"
          rw [hSel] at hsum
          exact hsum
    -- min
    · rcases stack with _ | ⟨param, _ | ⟨left, rest⟩⟩
      · exact Except.noConfusion h
      · exact Except.noConfusion h
      · have hm := evalStep_minmax false fuel st param left rest
        rw [show (if false then "max" else "min") = "min" from rfl] at hm
        rw [hm] at h
        split_ifs at h
        all_goals try exact Except.noConfusion h
        all_goals
          injection h with h1
          injection h1 with hS hT
          subst hS
          refine ⟨_, rest, rfl, ?_⟩
          intro l hl
          have hls := Option.some.inj hl
          subst hls
          exact minmaxLoop_sum false param.V _
    -- max
    · rcases stack with _ | ⟨param, _ | ⟨left, rest⟩⟩
      · exact Except.noConfusion h
      · exact Except.noConfusion h
      · have hm := evalStep_minmax true fuel st param left rest
        rw [show (if true then "max" else "min") = "max" from rfl] at hm
        rw [hm] at h
        split_ifs at h
        all_goals try exact Except.noConfusion h
        all_goals
          injection h with h1
          injection h1 with hS hT
          subst hS
          refine ⟨_, rest, rfl, ?_⟩
          intro l hl
          have hls := Option.some.inj hl
          subst hls
          exact minmaxLoop_sum true param.V _
    -- f
    · rcases stack with _ | ⟨rightF, _ | ⟨leftF, rest⟩⟩
      · exact Except.noConfusion h
      · exact Except.noConfusion h
      · rw [evalStep_f_dispatch] at h
        split_ifs at h
        all_goals try exact Except.noConfusion h
        injection h with h1
        injection h1 with hS hT
        subst hS
        refine ⟨_, rest, rfl, ?_⟩
        intro l hl
        have hls := Option.some.inj hl
        subst hls
        exact rollFudge_sum leftF.V.toNat st.rng
    -- sp
    · rcases stack with _ | ⟨paramSp, _ | ⟨leftSp, rest⟩⟩
      · exact Except.noConfusion h
      · exact Except.noConfusion h
      · rw [evalStep_sp_dispatch] at h
        split_ifs at h
        all_goals try exact Except.noConfusion h
        all_goals
          injection h with h1
          injection h1 with hS hT
          subst hS
          refine ⟨_, rest, rfl, ?_⟩
          intro l hl
          have hls := Option.some.inj hl
          subst hls
          simp
    -- tp
    · rcases stack with _ | ⟨paramTp, _ | ⟨leftTp, rest⟩⟩
      · exact Except.noConfusion h
      · exact Except.noConfusion h
      · rw [evalStep_tp_dispatch] at h
        split_ifs at h
        all_goals try exact Except.noConfusion h
        all_goals
          injection h with h1
          injection h1 with hS hT
          subst hS
          refine ⟨_, rest, rfl, ?_⟩
          intro l hl
          have hls := Option.some.inj hl
          subst hls
          first
          | exact sumGo_eq_sum _
          | simp

/-- A successful run over a token list ending in `t` ends with a
successful `evalStep` on `t` producing the final stack and state. -/
theorem evalRPNList_last :
    ∀ (l : List String) (fuel : Nat) (st : EvalSt) (stack : List Value) (t : String)
      (out : List Value × EvalSt),
      evalRPNList fuel st stack (l ++ [t]) = .ok out →
      ∃ fuel' st' stack', evalStep fuel' st' stack' t = .ok out := by
  intro l
  induction l with
  | nil =>
    intro fuel st stack t out h
    cases fuel with
    | zero => exact Except.noConfusion h
    | succ fuel =>
      have hraw : evalRPNList (fuel + 1) st stack ([] ++ [t]) =
          (match evalStep fuel st stack t with
           | .error e => .error e
           | .ok (stack', st') => evalRPNList fuel st' stack' []) := rfl
      rw [hraw] at h
      rcases hS : evalStep fuel st stack t with e | ⟨stack', st'⟩
      · rw [hS] at h
        exact Except.noConfusion h
      · rw [hS] at h
        dsimp only at h
        cases fuel with
        | zero => exact Except.noConfusion h
        | succ fuel2 =>
          have h2 : evalRPNList (fuel2 + 1) st' stack' [] = .ok (stack', st') := rfl
          rw [h2] at h
          injection h with h3
          exact ⟨fuel2 + 1, st, stack, h3 ▸ hS⟩
  | cons tok l ih =>
    intro fuel st stack t out h
    cases fuel with
    | zero => exact Except.noConfusion h
    | succ fuel =>
      have hraw : evalRPNList (fuel + 1) st stack ((tok :: l) ++ [t]) =
          (match evalStep fuel st stack tok with
           | .error e => .error e
           | .ok (stack', st') => evalRPNList fuel st' stack' (l ++ [t])) := rfl
      rw [hraw] at h
      rcases hS : evalStep fuel st stack tok with e | ⟨stack', st'⟩
      · rw [hS] at h
        exact Except.noConfusion h
      · rw [hS] at h
        dsimp only at h
        exact ih fuel st' stack' t out h

/-- C2: whenever a `d`, `f`, `k`, `q`, `kh`, `kl`, `dh`, `dl`, `min`,
`max`, `sp`, `tp` or numeric `lp` step succeeds and its result carries an
integer meta list, the result's value is the sum of that list (value 0
for the empty list); the same holds for a whole RPN evaluation whose
final token is such an operator. -/
theorem C2_sum_invariant :
    (∀ t, t ∈ (["d", "k", "q", "lp", "kh", "kl", "dh", "dl", "min", "max", "f",
        "sp", "tp"] : List String) →
      ∀ (fuel : Nat) (st : EvalSt) (stack stack₂ : List Value) (st₂ : EvalSt),
        evalStep fuel st stack t = .ok (stack₂, st₂) →
        ∃ v rest, stack₂ = v :: rest ∧ ∀ l, v.Meta = some l → v.V = l.sum) ∧
    (∀ t, t ∈ (["d", "k", "q", "lp", "kh", "kl", "dh", "dl", "min", "max", "f",
        "sp", "tp"] : List String) →
      ∀ (fuel : Nat) (st : EvalSt) (pre : List String) (v : Value) (st₂ : EvalSt),
        evalRPN fuel st (pre ++ [t]) = .ok (v, st₂) →
        ∀ l, v.Meta = some l → v.V = l.sum) := by
  refine ⟨fun t ht fuel st stack stack₂ st₂ h =>
    evalStep_sumOp t ht fuel st stack stack₂ st₂ h, ?_⟩
  intro t ht fuel st pre v st₂ h l hl
  cases fuel with
  | zero => exact Except.noConfusion h
  | succ fuel =>
    have hraw : evalRPN (fuel + 1) st (pre ++ [t]) =
        (match evalRPNList fuel st [] (pre ++ [t]) with
         | .error e => .error e
         | .ok (stack, st') =>
           match stack with
           | [v] => .ok (v, st')
           | _ => .error .unknownGenerate) := rfl
    rw [hraw] at h
    rcases hL : evalRPNList fuel st [] (pre ++ [t]) with e | ⟨stack, st'⟩
    · rw [hL] at h
      exact Except.noConfusion h
    · rw [hL] at h
      dsimp only at h
      rcases stack with _ | ⟨v0, _ | ⟨w, more⟩⟩
      · exact Except.noConfusion h
      · injection h with h1
        injection h1 with hv hst
        subst hv
        obtain ⟨f', s', stk', hstep⟩ := evalRPNList_last pre fuel st [] t ([v0], st') hL
        obtain ⟨vv, rr, hshape, hsum⟩ :=
          evalStep_sumOp t ht f' s' stk' [v0] st' hstep
        injection hshape with hv0 hrr
        subst hv0
        exact hsum l hl
      · exact Except.noConfusion h

/-- Witness for C2: `1d1` at the step level on the all-zero stream. -/
theorem C2_sum_invariant_witness :
    ∃ v rest, ([(⟨1, some [1], true, 0, false, none⟩ : Value)] : List Value) = v :: rest ∧
      ∀ l, v.Meta = some l → v.V = l.sum :=
  C2_sum_invariant.1 "d" (by decide) 1 ⟨none, [], ⟨gZero, 0⟩, 100⟩
    [Value.scalar 1, Value.scalar 1] [⟨1, some [1], true, 0, false, none⟩]
    ⟨none, [], ⟨gZero, 1⟩, 100⟩ (by rfl)

end GoneDice
